import Mathlib

/-!
chainlink-llo: channel definitions and observation validation.

A shallow embedding of `llo/channel_definitions.go` and of the validation
callback of `llo/plugin.go`.

Modelling conventions.

* A Go `map[K]V` is the list of its entries in the order a `range` loop visits
  them.  Go fixes no iteration order, so a statement about "the map" is a
  statement that holds for every permutation of the entry list.  The keys of a
  map are pairwise distinct (`GoMap.WF`), and `len m` is the length of the list.
* `uint32`/`uint64` identifiers are natural numbers; no arithmetic is performed
  on them, only comparisons.
* A Go `error` result is an `Except` whose error type records which `return
  fmt.Errorf(...)` statement was taken, with the values it formats.
* A run-time panic is the `none` of an `Option`.
-/

namespace LLO

/-! ## Go maps -/

/-- A Go map value: its entries, in the order a `range` loop visits them. -/
abbrev GoMap (κ ν : Type) := List (κ × ν)

namespace GoMap

variable {κ ν : Type}

/-- The keys of a map, in iteration order. -/
def keys (m : GoMap κ ν) : List κ := m.map Prod.fst

/-- The keys of a Go map are pairwise distinct. -/
def WF (m : GoMap κ ν) : Prop := (keys m).Nodup

/-- The read `v, ok := m[k]`: `some v` when `ok`. -/
def get? [DecidableEq κ] (m : GoMap κ ν) (k : κ) : Option ν :=
  match m with
  | [] => none
  | (k', v) :: rest => if k' = k then some v else get? rest k

/-- The assignment `m[k] = v`: overwrites the entry of `k`, or adds one. -/
def set [DecidableEq κ] (m : GoMap κ ν) (k : κ) (v : ν) : GoMap κ ν :=
  match m with
  | [] => [(k, v)]
  | (k', v') :: rest => if k' = k then (k, v) :: rest else (k', v') :: set rest k v

end GoMap

/-! ## Types of `chainlink-common/pkg/types/llo` used by the package -/

/-- The type `llotypes.ChannelID` (`uint32`). -/
abbrev ChannelID := Nat
/-- The type `llotypes.StreamID` (`uint32`). -/
abbrev StreamID := Nat
/-- The type `llotypes.Aggregator` (`uint32`); zero is the uninitialized value. -/
abbrev Aggregator := Nat
/-- The type `llotypes.ReportFormat` (`uint32`). -/
abbrev ReportFormat := Nat
/-- A Go `[]byte`. -/
abbrev Bytes := List (Fin 256)

/-- Modelled from the spec: the constant `llotypes.ReportFormatEVMPremiumLegacy`
is declared outside this package; the spec describes `ReportFormat` as an
enumerated tag of which "EVM premium legacy" is one value.  Only its identity is
used. -/
def ReportFormatEVMPremiumLegacy : ReportFormat := 1

/-- One entry of `ChannelDefinition.Streams`. -/
structure Stream where
  StreamID : StreamID
  Aggregator : Aggregator
deriving DecidableEq, Repr

/-- The struct `llotypes.ChannelDefinition`. -/
structure ChannelDefinition where
  ReportFormat : ReportFormat
  Streams : List Stream
  Opts : Bytes
deriving DecidableEq, Repr

/-- The type `llotypes.ChannelDefinitions`, a `map[ChannelID]ChannelDefinition`. -/
abbrev ChannelDefinitions := GoMap ChannelID ChannelDefinition

/-- The struct `ChannelDefinitionWithID`, built positionally in
`subtractChannelDefinitions` as `{channelDefinition, channelID}`. -/
structure ChannelDefinitionWithID where
  ChannelDefinition : ChannelDefinition
  ChannelID : ChannelID
deriving DecidableEq, Repr

/-! ## Constants of `plugin.go` -/

def MaxObservationRemoveChannelIDsLength : Nat := 5
def MaxObservationUpdateChannelDefinitionsLength : Nat := 5
def MaxObservationStreamValuesLength : Nat := 10000
def MaxOutcomeChannelDefinitionsLength : Nat := 10000

/-! ## `channel_definitions.go` -/

/-- The two failures of `VerifyEVMPremiumLegacyChannelDefinition`. -/
inductive LegacyError where
  /-- "expected ReportFormatEVMPremiumLegacy, got: %v". -/
  | wrongFormat (got : ReportFormat)
  /-- "ReportFormatEVMPremiumLegacy requires exactly 3 streams ...; got: %v". -/
  | not3Streams (got : List Stream)
deriving DecidableEq, Repr

/-- The failures of `VerifyChannelDefinitions`, one per `return fmt.Errorf`. -/
inductive VerifyError where
  /-- "too many channels, got: %d/%d". -/
  | tooManyChannels (got : Nat)
  /-- "ChannelDefinition with ID %d has no streams". -/
  | noStreams (channelID : ChannelID)
  /-- "ChannelDefinition with ID %d has stream %d with zero aggregator ...". -/
  | zeroAggregator (channelID : ChannelID) (streamID : StreamID)
  /-- "invalid ChannelDefinition with ID %d: %v". -/
  | invalidChannelDefinition (channelID : ChannelID) (err : LegacyError)
  /-- "too many unique stream IDs, got: %d/%d". -/
  | tooManyUniqueStreamIDs (got : Nat)
deriving DecidableEq, Repr

/-- The function `VerifyEVMPremiumLegacyChannelDefinition`. -/
def VerifyEVMPremiumLegacyChannelDefinition (cd : ChannelDefinition) : Except LegacyError Unit :=
  if cd.ReportFormat ≠ ReportFormatEVMPremiumLegacy then
    .error (.wrongFormat cd.ReportFormat)
  else if cd.Streams.length ≠ 3 then
    .error (.not3Streams cd.Streams)
  else
    .ok ()

/-- The inner loop `for _, strm := range cd.Streams` of `VerifyChannelDefinitions`,
threading the set `uniqueStreamIDs`. -/
def verifyStreams (channelID : ChannelID) :
    List Stream → GoMap StreamID Unit → Except VerifyError (GoMap StreamID Unit)
  | [], unique => .ok unique
  | strm :: rest, unique =>
    if strm.Aggregator = 0 then
      .error (.zeroAggregator channelID strm.StreamID)
    else
      verifyStreams channelID rest (unique.set strm.StreamID ())

/-- One iteration of the loop `for channelID, cd := range channelDefs`. -/
def verifyChannel (unique : GoMap StreamID Unit) (channelID : ChannelID)
    (cd : ChannelDefinition) : Except VerifyError (GoMap StreamID Unit) :=
  if cd.Streams.length = 0 then
    .error (.noStreams channelID)
  else
    match verifyStreams channelID cd.Streams unique with
    | .error e => .error e
    | .ok unique' =>
      if cd.ReportFormat = ReportFormatEVMPremiumLegacy then
        match VerifyEVMPremiumLegacyChannelDefinition cd with
        | .error err => .error (.invalidChannelDefinition channelID err)
        | .ok _ => .ok unique'
      else
        .ok unique'

/-- The loop `for channelID, cd := range channelDefs`, over the entries in
iteration order, returning at the first failure. -/
def verifyChannels :
    List (ChannelID × ChannelDefinition) → GoMap StreamID Unit →
      Except VerifyError (GoMap StreamID Unit)
  | [], unique => .ok unique
  | (channelID, cd) :: rest, unique =>
    match verifyChannel unique channelID cd with
    | .error e => .error e
    | .ok unique' => verifyChannels rest unique'

/-- The function `VerifyChannelDefinitions`. -/
def VerifyChannelDefinitions (channelDefs : ChannelDefinitions) : Except VerifyError Unit :=
  if channelDefs.length > MaxOutcomeChannelDefinitionsLength then
    .error (.tooManyChannels channelDefs.length)
  else
    match verifyChannels channelDefs [] with
    | .error e => .error e
    | .ok uniqueStreamIDs =>
      if uniqueStreamIDs.length > MaxObservationStreamValuesLength then
        .error (.tooManyUniqueStreamIDs uniqueStreamIDs.length)
      else
        .ok ()

/-- The comparison passed to `sort.Slice` in `subtractChannelDefinitions`. -/
def lessChannelID (a b : ChannelDefinitionWithID) : Bool :=
  decide (a.ChannelID < b.ChannelID)

/-- The standard library's `sort.Slice(s, less)`: it rearranges `s` so that no
element is `less` than an earlier one.  It is not stable; on a slice whose
elements are pairwise ordered by `less`, as here, the result is the same for
every sorting algorithm.  Embedded as an insertion sort. -/
def sortSlice {α : Type} (less : α → α → Bool) (s : List α) : List α :=
  s.insertionSort (fun a b => less b a = false)

/-- The first loop of `subtractChannelDefinitions`: the entries of the minuend
whose key is not in the subtrahend, in iteration order. -/
def differenceListOf (minuend subtrahend : ChannelDefinitions) : List ChannelDefinitionWithID :=
  minuend.filterMap fun e =>
    match GoMap.get? subtrahend e.1 with
    | some _ => none
    | none => some ⟨e.2, e.1⟩

/-- The last loop of `subtractChannelDefinitions`. -/
def toDifference (differenceList : List ChannelDefinitionWithID) : ChannelDefinitions :=
  differenceList.foldl (fun difference defWithID =>
    GoMap.set difference defWithID.ChannelID defWithID.ChannelDefinition) []

/-- The function `subtractChannelDefinitions`.  `limit` is a Go `int`; the slice
expression `differenceList[:limit]` panics when `limit` is negative, which is
the result `none`. -/
def subtractChannelDefinitions (minuend subtrahend : ChannelDefinitions) (limit : Int) :
    Option ChannelDefinitions :=
  let differenceList := sortSlice lessChannelID (differenceListOf minuend subtrahend)
  if (differenceList.length : Int) > limit then
    if limit < 0 then
      none
    else
      some (toDifference (differenceList.take limit.toNat))
  else
    some (toDifference differenceList)

/-! ## `plugin.go`: the types the validation callback reads -/

/-- A Go `error` value produced by a collaborator. -/
abbrev GoError := String
/-- The type `types.ConfigDigest` of libocr (`[32]byte`). -/
abbrev ConfigDigest := Bytes
/-- The type `types.Query` of libocr (`[]byte`). -/
abbrev Query := Bytes

/-- The struct `ocr3types.OutcomeContext` of libocr. -/
structure OutcomeContext where
  SeqNr : Nat
  PreviousOutcome : Bytes
  Epoch : Nat
  Round : Nat
deriving DecidableEq, Repr

/-- The struct `types.AttributedObservation` of libocr. -/
structure AttributedObservation where
  Observation : Bytes
  Observer : Nat
deriving DecidableEq, Repr

/-- Modelled from the spec: the struct `Observation` is declared in a file of the
package that is not among the sources.  The spec gives it the fields
UpdateChannelDefinitions (a ChannelDefinitions mapping), RemoveChannelIDs (a set
of ChannelID), StreamValues (a mapping from StreamID to an observed value whose
type the core does not inspect, here `σ`) and AttestedPredecessorRetirement (a
byte payload). -/
structure Observation (σ : Type) where
  AttestedPredecessorRetirement : Bytes
  RemoveChannelIDs : GoMap ChannelID Unit
  UpdateChannelDefinitions : ChannelDefinitions
  StreamValues : GoMap StreamID σ

/-- The zero value of `Observation`: every field nil. -/
def Observation.zero (σ : Type) : Observation σ := ⟨[], [], [], []⟩

/-- The method of the interface `ObservationCodec` that the validation callback
calls; any implementation of it is a function from bytes to an observation or
an error. -/
structure ObservationCodec (σ : Type) where
  Decode : Bytes → Except GoError (Observation σ)

/-- The struct `dsOpts`. -/
structure DSOpts where
  verboseLogging : Bool
  seqNr : Nat
deriving DecidableEq, Repr

/-- The interface `DataSource`; `Observe` writes into the map it is passed. -/
structure DataSource (σ : Type) where
  Observe : GoMap StreamID σ → DSOpts → Option GoError × GoMap StreamID σ

/-- The struct `RetirementReport`. -/
structure RetirementReport where
  ValidAfterSeconds : GoMap ChannelID Nat
deriving DecidableEq, Repr

/-- The interface `ShouldRetireCache`. -/
structure ShouldRetireCache where
  ShouldRetire : Except GoError Bool

/-- The interface `PredecessorRetirementReportCache`. -/
structure PredecessorRetirementReportCache where
  AttestedRetirementReport : ConfigDigest → Except GoError Bytes
  CheckAttestedRetirementReport : ConfigDigest → Bytes → Except GoError RetirementReport

/-- The interface `ChannelDefinitionCache`. -/
structure ChannelDefinitionCache where
  Definitions : ChannelDefinitions

/-- The interface `ReportCodec`; `ρ` is the type `Report`, declared in a file
of the package that is not among the sources. -/
structure ReportCodec (ρ : Type) where
  Encode : ρ → ChannelDefinition → Except GoError Bytes

/-- The struct `Config`. -/
structure Config where
  VerboseLogging : Bool
deriving DecidableEq, Repr

/-- The struct `Plugin`.  `PredecessorConfigDigest` is a pointer: `none` is nil.
The fields `Logger` and `OutcomeCodec`, which no callback embedded here reads and
whose types are declared elsewhere, are left out. -/
structure Plugin (σ ρ : Type) where
  Config : Config
  PredecessorConfigDigest : Option ConfigDigest
  ConfigDigest : ConfigDigest
  PredecessorRetirementReportCache : PredecessorRetirementReportCache
  ShouldRetireCache : ShouldRetireCache
  ChannelDefinitionCache : ChannelDefinitionCache
  DataSource : DataSource σ
  F : Int
  ObservationCodec : ObservationCodec σ
  Codecs : GoMap ReportFormat (ReportCodec ρ)

/-- The failures of `Plugin.ValidateObservation`, one per `return fmt.Errorf`. -/
inductive ValidateError where
  /-- "Invalid SeqNr: %d". -/
  | invalidSeqNr (seqNr : Nat)
  /-- "Expected empty observation for first round, got: 0x%x". -/
  | expectedEmptyObservation (got : Bytes)
  /-- "Observation decode error (got: 0x%x): %w". -/
  | decodeError (got : Bytes) (err : GoError)
  /-- "AttestedPredecessorRetirement is not empty even though this instance has
  no predecessor". -/
  | attestedPredecessorRetirementNotEmpty
  /-- "UpdateChannelDefinitions is too long: %v vs %v". -/
  | updateChannelDefinitionsTooLong (got : Nat)
  /-- "RemoveChannelIDs is too long: %v vs %v". -/
  | removeChannelIDsTooLong (got : Nat)
  /-- "UpdateChannelDefinitions is invalid: %w". -/
  | updateChannelDefinitionsInvalid (err : VerifyError)
  /-- "StreamValues is too long: %v vs %v". -/
  | streamValuesTooLong (got : Nat)
deriving DecidableEq, Repr

/-- The checks of `Plugin.ValidateObservation` that follow a successful decode. -/
def validateDecoded {σ : Type} (hasPredecessor : Bool) (observation : Observation σ) :
    Except ValidateError Unit :=
  if hasPredecessor = false ∧ observation.AttestedPredecessorRetirement.length ≠ 0 then
    .error .attestedPredecessorRetirementNotEmpty
  else if observation.UpdateChannelDefinitions.length >
      MaxObservationUpdateChannelDefinitionsLength then
    .error (.updateChannelDefinitionsTooLong observation.UpdateChannelDefinitions.length)
  else if observation.RemoveChannelIDs.length > MaxObservationRemoveChannelIDsLength then
    .error (.removeChannelIDsTooLong observation.RemoveChannelIDs.length)
  else
    match VerifyChannelDefinitions observation.UpdateChannelDefinitions with
    | .error err => .error (.updateChannelDefinitionsInvalid err)
    | .ok _ =>
      if observation.StreamValues.length > MaxObservationStreamValuesLength then
        .error (.streamValuesTooLong observation.StreamValues.length)
      else
        .ok ()

/-- The method `Plugin.ValidateObservation`. -/
def Plugin.ValidateObservation {σ ρ : Type} (p : Plugin σ ρ) (outctx : OutcomeContext)
    (_query : Query) (ao : AttributedObservation) : Except ValidateError Unit :=
  if outctx.SeqNr < 1 then
    .error (.invalidSeqNr outctx.SeqNr)
  else if outctx.SeqNr = 1 ∧ ao.Observation.length ≠ 0 then
    .error (.expectedEmptyObservation ao.Observation)
  else
    match p.ObservationCodec.Decode ao.Observation with
    | .error err => .error (.decodeError ao.Observation err)
    | .ok observation => validateDecoded p.PredecessorConfigDigest.isSome observation

/-! ## Vocabulary of the statements -/

/-- The per-channel conditions of `VerifyChannelDefinitions`: some stream, no
zero aggregator, and three streams when the format is EVM premium legacy. -/
def ChannelValid (cd : ChannelDefinition) : Prop :=
  cd.Streams ≠ [] ∧ (∀ s ∈ cd.Streams, s.Aggregator ≠ 0) ∧
    (cd.ReportFormat = ReportFormatEVMPremiumLegacy → cd.Streams.length = 3)

instance (cd : ChannelDefinition) : Decidable (ChannelValid cd) := by
  unfold ChannelValid; infer_instance

/-- Every StreamID occurrence of a mapping, channel by channel. -/
def allStreamIDs (defs : ChannelDefinitions) : List StreamID :=
  defs.flatMap fun e => e.2.Streams.map Stream.StreamID

/-- The number of distinct StreamIDs over all channels of a mapping. -/
def distinctStreamIDs (defs : ChannelDefinitions) : Nat :=
  (allStreamIDs defs).dedup.length

/-- Whether a result is success. -/
def succeeds {ε α : Type} (r : Except ε α) : Bool :=
  match r with
  | .ok _ => true
  | .error _ => false

/-- The set `uniqueStreamIDs` after the assignments `unique[id] = struct{}{}` for
the given ids in turn. -/
def setAll (unique : GoMap StreamID Unit) (ids : List StreamID) : GoMap StreamID Unit :=
  ids.foldl (fun u i => GoMap.set u i ()) unique

/-- Replaces the `Opts` of every channel, as a function of the channel. -/
def withOpts (f : ChannelID → ChannelDefinition → Bytes) (defs : ChannelDefinitions) :
    ChannelDefinitions :=
  defs.map fun e => (e.1, { e.2 with Opts := f e.1 e.2 })

/-- The ChannelIDs of the minuend that are not ChannelIDs of the subtrahend, in
the iteration order of the minuend. -/
def missingKeys (minuend subtrahend : ChannelDefinitions) : List ChannelID :=
  (GoMap.keys minuend).filter fun k => k ∉ GoMap.keys subtrahend

/-- The map entry that the last loop of `subtractChannelDefinitions` writes for
an element of the difference list. -/
def toEntry (d : ChannelDefinitionWithID) : ChannelID × ChannelDefinition :=
  (d.ChannelID, d.ChannelDefinition)

/-! ## Fixtures of the examples -/

/-- A plugin with the given predecessor digest and observation codec; its other
collaborators answer with errors or empty values. -/
def fixturePlugin {σ : Type} (predecessor : Option ConfigDigest)
    (decode : Bytes → Except GoError (Observation σ)) : Plugin σ Unit where
  Config := ⟨false⟩
  PredecessorConfigDigest := predecessor
  ConfigDigest := []
  PredecessorRetirementReportCache := ⟨fun _ => .error "", fun _ _ => .error ""⟩
  ShouldRetireCache := ⟨.ok false⟩
  ChannelDefinitionCache := ⟨[]⟩
  DataSource := ⟨fun values _ => (none, values)⟩
  F := 1
  ObservationCodec := ⟨decode⟩
  Codecs := []

/-- A codec that decodes a payload to the observation whose only content is the
payload itself, as its AttestedPredecessorRetirement; the empty payload decodes
to the zero value. -/
def retirementOnlyCodec (b : Bytes) : Except GoError (Observation Unit) :=
  .ok { Observation.zero Unit with AttestedPredecessorRetirement := b }

/-- A codec that decodes every payload to the given observation. -/
def constantCodec {σ : Type} (o : Observation σ) (_b : Bytes) : Except GoError (Observation σ) :=
  .ok o

/-! ## `plugin.go`: `ObservationQuorum` -/

/-- Modelled from the spec: the type `ocr3types.Quorum` is declared in libocr,
outside the sources.  The spec describes the quorum as the minimum number of
validated observations required before outcome derivation, as a function of the
fault tolerance `f` supplied per instance: a quorum is the rule that gives the
required count for a fault tolerance. -/
structure Quorum where
  required : Int → Int

/-- Modelled from the spec: the constant `ocr3types.QuorumTwoFPlusOne` is
declared in libocr, outside the sources.  The spec fixes the quorum "at 2f+1,
where f is the maximum tolerated faulty participant count". -/
def QuorumTwoFPlusOne : Quorum := ⟨fun f => 2 * f + 1⟩

/-- The method `Plugin.ObservationQuorum`; the second component is the `error`,
`none` for nil. -/
def Plugin.ObservationQuorum {σ ρ : Type} (_p : Plugin σ ρ) (_outctx : OutcomeContext)
    (_query : Query) : Quorum × Option GoError :=
  (QuorumTwoFPlusOne, none)

/-- The failure that `VerifyChannelDefinitions` reports for a channel taken on
its own, `none` when the channel passes the per-channel checks. -/
def channelFailure (channelID : ChannelID) (cd : ChannelDefinition) : Option VerifyError :=
  if cd.Streams.length = 0 then
    some (.noStreams channelID)
  else
    match cd.Streams.find? fun s => decide (s.Aggregator = 0) with
    | some s => some (.zeroAggregator channelID s.StreamID)
    | none =>
      if cd.ReportFormat = ReportFormatEVMPremiumLegacy ∧ cd.Streams.length ≠ 3 then
        some (.invalidChannelDefinition channelID (.not3Streams cd.Streams))
      else
        none

/-- The failure of the first channel, in iteration order, that fails the
per-channel checks. -/
def firstChannelFailure (defs : ChannelDefinitions) : Option VerifyError :=
  defs.findSome? fun e => channelFailure e.1 e.2

/-! ## Vocabulary of the batched reconciliation -/

/-- The union of a mapping with a batch: the assignments `B[k] = v` for the
entries of the batch in turn. -/
def mergeInto (B batch : ChannelDefinitions) : ChannelDefinitions :=
  batch.foldl (fun m e => GoMap.set m e.1 e.2) B

/-- The sorted difference list cut at `n` entries, as a mapping: what
`subtractChannelDefinitions` returns for the limit `n`. -/
def subtractBatch (A B : ChannelDefinitions) (n : Nat) : ChannelDefinitions :=
  ((sortSlice lessChannelID (differenceListOf A B)).take n).map toEntry

/-- The mapping after `i` reconciliation steps from `B0` towards `A`, with
batches of at most `n` channels. -/
def reconcileState (A : ChannelDefinitions) (n : Nat) (B0 : ChannelDefinitions) :
    Nat → ChannelDefinitions
  | 0 => B0
  | i + 1 => mergeInto (reconcileState A n B0 i) (subtractBatch A (reconcileState A n B0 i) n)

/-- The quotient `a / b` rounded up. -/
def ceilDiv (a b : Nat) : Nat := (a + b - 1) / b

/-! ## Lemmas on Go maps -/

theorem GoMap.keys_set {κ ν : Type} [DecidableEq κ] (m : GoMap κ ν) (k : κ) (v : ν) :
    GoMap.keys (GoMap.set m k v) =
      if k ∈ GoMap.keys m then GoMap.keys m else GoMap.keys m ++ [k] := by
  induction m with
  | nil => simp [GoMap.set, GoMap.keys]
  | cons e rest ih =>
    obtain ⟨k', v'⟩ := e
    unfold GoMap.keys at ih ⊢
    by_cases h : k' = k
    · subst h; simp [GoMap.set]
    · have h' : ¬ k = k' := fun h'' => h h''.symm
      simp only [GoMap.set, h, if_false, List.map_cons, List.mem_cons, h', false_or, ih]
      split <;> simp

theorem GoMap.wf_set {κ ν : Type} [DecidableEq κ] (m : GoMap κ ν) (k : κ) (v : ν)
    (h : GoMap.WF m) : GoMap.WF (GoMap.set m k v) := by
  unfold GoMap.WF at h ⊢
  rw [GoMap.keys_set]
  split
  · exact h
  · next hk =>
    rw [List.nodup_append]
    refine ⟨h, List.nodup_singleton k, ?_⟩
    intro a ha hb
    simp at hb
    exact hk (hb ▸ ha)

theorem GoMap.get?_eq_none_iff {κ ν : Type} [DecidableEq κ] (m : GoMap κ ν) (k : κ) :
    GoMap.get? m k = none ↔ k ∉ GoMap.keys m := by
  induction m with
  | nil => simp [GoMap.get?, GoMap.keys]
  | cons e rest ih =>
    obtain ⟨k', v'⟩ := e
    unfold GoMap.keys at ih ⊢
    by_cases h : k' = k
    · subst h; simp [GoMap.get?]
    · have h' : ¬ k = k' := fun h'' => h h''.symm
      simp [GoMap.get?, h, h', ih]

theorem GoMap.get?_eq_some_iff {κ ν : Type} [DecidableEq κ] (m : GoMap κ ν) (k : κ) (v : ν)
    (h : GoMap.WF m) : GoMap.get? m k = some v ↔ (k, v) ∈ m := by
  induction m with
  | nil => simp [GoMap.get?]
  | cons e rest ih =>
    obtain ⟨k', v'⟩ := e
    unfold GoMap.WF GoMap.keys at h ih
    simp only [List.map_cons, List.nodup_cons] at h
    by_cases hk : k' = k
    · subst hk
      simp only [GoMap.get?, if_true, Option.some.injEq, List.mem_cons, Prod.mk.injEq, true_and]
      constructor
      · intro hv; exact Or.inl hv.symm
      · rintro (hv | hv)
        · exact hv.symm
        · exact absurd (List.mem_map_of_mem Prod.fst hv) h.1
    · have h' : ¬ k = k' := fun h'' => hk h''.symm
      simp [GoMap.get?, hk, h', ih h.2]

theorem setAll_wf (ids : List StreamID) (unique : GoMap StreamID Unit)
    (h : GoMap.WF unique) : GoMap.WF (setAll unique ids) := by
  induction ids generalizing unique with
  | nil => simpa [setAll] using h
  | cons i rest ih => exact ih _ (GoMap.wf_set unique i () h)

theorem setAll_keys_toFinset (ids : List StreamID) (unique : GoMap StreamID Unit) :
    (GoMap.keys (setAll unique ids)).toFinset = (GoMap.keys unique).toFinset ∪ ids.toFinset := by
  induction ids generalizing unique with
  | nil => simp [setAll]
  | cons i rest ih =>
    have := ih (GoMap.set unique i ())
    unfold setAll at this ⊢
    rw [List.foldl_cons, this, GoMap.keys_set]
    ext x
    split
    · next hi =>
      simp only [List.mem_toFinset, Finset.mem_union, List.mem_cons]
      constructor
      · rintro (hx | hx)
        · exact Or.inl hx
        · exact Or.inr (Or.inr hx)
      · rintro (hx | hx | hx)
        · exact Or.inl hx
        · exact Or.inl (hx ▸ hi)
        · exact Or.inr hx
    · simp only [List.mem_toFinset, Finset.mem_union, List.mem_cons, List.mem_append,
        List.mem_singleton]
      tauto

theorem setAll_append (unique : GoMap StreamID Unit) (xs ys : List StreamID) :
    setAll unique (xs ++ ys) = setAll (setAll unique xs) ys := by
  simp [setAll, List.foldl_append]

theorem setAll_nil_length (ids : List StreamID) : (setAll [] ids).length = ids.dedup.length := by
  have hwf : GoMap.WF (setAll [] ids) := setAll_wf ids [] (by simp [GoMap.WF, GoMap.keys])
  have hfin := setAll_keys_toFinset ids []
  have hlen : (setAll [] ids).length = (GoMap.keys (setAll [] ids)).length := by
    simp [GoMap.keys]
  rw [hlen, ← List.toFinset_card_of_nodup hwf, hfin, ← List.card_toFinset]
  simp [GoMap.keys]

/-! ## Lemmas on `VerifyChannelDefinitions` -/

theorem verifyStreams_of_valid (channelID : ChannelID) (ss : List Stream)
    (unique : GoMap StreamID Unit) (h : ∀ s ∈ ss, s.Aggregator ≠ 0) :
    verifyStreams channelID ss unique = .ok (setAll unique (ss.map Stream.StreamID)) := by
  induction ss generalizing unique with
  | nil => rfl
  | cons s rest ih =>
    have hs : s.Aggregator ≠ 0 := h s (List.mem_cons_self _ _)
    have hrest : ∀ t ∈ rest, t.Aggregator ≠ 0 := fun t ht => h t (List.mem_cons_of_mem _ ht)
    simp only [verifyStreams, hs, if_false, ih _ hrest]
    rfl

theorem verifyStreams_of_invalid (channelID : ChannelID) (ss : List Stream)
    (unique : GoMap StreamID Unit) (h : ∃ s ∈ ss, s.Aggregator = 0) :
    ∃ sid, verifyStreams channelID ss unique = .error (.zeroAggregator channelID sid) := by
  induction ss generalizing unique with
  | nil => simp at h
  | cons s rest ih =>
    by_cases hs : s.Aggregator = 0
    · exact ⟨s.StreamID, by simp [verifyStreams, hs]⟩
    · have hrest : ∃ t ∈ rest, t.Aggregator = 0 := by
        obtain ⟨t, ht, ht0⟩ := h
        rcases List.mem_cons.1 ht with rfl | ht'
        · exact absurd ht0 hs
        · exact ⟨t, ht', ht0⟩
      obtain ⟨sid, hsid⟩ := ih (GoMap.set unique s.StreamID ()) hrest
      exact ⟨sid, by simp [verifyStreams, hs, hsid]⟩

theorem verifyChannel_of_valid (unique : GoMap StreamID Unit) (channelID : ChannelID)
    (cd : ChannelDefinition) (h : ChannelValid cd) :
    verifyChannel unique channelID cd = .ok (setAll unique (cd.Streams.map Stream.StreamID)) := by
  obtain ⟨hne, hagg, hfmt⟩ := h
  have hlen : cd.Streams.length ≠ 0 := fun h0 => hne (List.length_eq_zero.1 h0)
  unfold verifyChannel
  rw [if_neg hlen, verifyStreams_of_valid _ _ _ hagg]
  by_cases hf : cd.ReportFormat = ReportFormatEVMPremiumLegacy
  · simp [hf, VerifyEVMPremiumLegacyChannelDefinition, hfmt hf]
  · simp [hf]

theorem verifyChannel_of_invalid (unique : GoMap StreamID Unit) (channelID : ChannelID)
    (cd : ChannelDefinition) (h : ¬ ChannelValid cd) :
    ∃ e, verifyChannel unique channelID cd = .error e := by
  unfold verifyChannel
  by_cases hlen : cd.Streams.length = 0
  · exact ⟨_, by rw [if_pos hlen]⟩
  · rw [if_neg hlen]
    by_cases hagg : ∀ s ∈ cd.Streams, s.Aggregator ≠ 0
    · rw [verifyStreams_of_valid _ _ _ hagg]
      by_cases hf : cd.ReportFormat = ReportFormatEVMPremiumLegacy
      · have h3 : cd.Streams.length ≠ 3 := fun h3 =>
          h ⟨fun h0 => hlen (by simp [h0]), hagg, fun _ => h3⟩
        exact ⟨.invalidChannelDefinition channelID (.not3Streams cd.Streams),
          by simp [hf, VerifyEVMPremiumLegacyChannelDefinition, h3]⟩
      · exact absurd ⟨fun h0 => hlen (by simp [h0]), hagg, fun hf' => absurd hf' hf⟩ h
    · have hex : ∃ s ∈ cd.Streams, s.Aggregator = 0 := by
        by_contra hno
        exact hagg fun s hs h0 => hno ⟨s, hs, h0⟩
      obtain ⟨sid, hsid⟩ := verifyStreams_of_invalid channelID cd.Streams unique hex
      exact ⟨_, by rw [hsid]⟩

theorem verifyChannels_of_valid (defs : ChannelDefinitions) (unique : GoMap StreamID Unit)
    (h : ∀ e ∈ defs, ChannelValid e.2) :
    verifyChannels defs unique = .ok (setAll unique (allStreamIDs defs)) := by
  induction defs generalizing unique with
  | nil => rfl
  | cons e rest ih =>
    obtain ⟨channelID, cd⟩ := e
    have hcd : ChannelValid cd := h (channelID, cd) (List.mem_cons_self _ _)
    have hrest : ∀ e ∈ rest, ChannelValid e.2 := fun e he => h e (List.mem_cons_of_mem _ he)
    have hall : allStreamIDs ((channelID, cd) :: rest) =
        cd.Streams.map Stream.StreamID ++ allStreamIDs rest := by
      simp [allStreamIDs]
    simp only [verifyChannels, verifyChannel_of_valid _ _ _ hcd, ih _ hrest, hall, setAll_append]

theorem verifyChannels_of_invalid (defs : ChannelDefinitions) (unique : GoMap StreamID Unit)
    (h : ∃ e ∈ defs, ¬ ChannelValid e.2) :
    ∃ err, verifyChannels defs unique = .error err := by
  induction defs generalizing unique with
  | nil => simp at h
  | cons e rest ih =>
    obtain ⟨channelID, cd⟩ := e
    by_cases hcd : ChannelValid cd
    · have hrest : ∃ e ∈ rest, ¬ ChannelValid e.2 := by
        obtain ⟨e, he, hne⟩ := h
        rcases List.mem_cons.1 he with rfl | he'
        · exact absurd hcd hne
        · exact ⟨e, he', hne⟩
      obtain ⟨err, herr⟩ := ih (setAll unique (cd.Streams.map Stream.StreamID)) hrest
      exact ⟨err, by simp only [verifyChannels, verifyChannel_of_valid _ _ _ hcd, herr]⟩
    · obtain ⟨err, herr⟩ := verifyChannel_of_invalid unique channelID cd hcd
      exact ⟨err, by simp only [verifyChannels, herr]⟩

/-- The result of `VerifyChannelDefinitions` on a mapping within the channel
limit whose channels are all valid. -/
theorem VerifyChannelDefinitions_of_valid (defs : ChannelDefinitions)
    (hlen : defs.length ≤ MaxOutcomeChannelDefinitionsLength)
    (h : ∀ e ∈ defs, ChannelValid e.2) :
    VerifyChannelDefinitions defs =
      if distinctStreamIDs defs > MaxObservationStreamValuesLength then
        .error (.tooManyUniqueStreamIDs (distinctStreamIDs defs))
      else .ok () := by
  unfold VerifyChannelDefinitions
  rw [if_neg (Nat.not_lt.2 hlen), verifyChannels_of_valid _ _ h]
  simp only [setAll_nil_length, distinctStreamIDs]

theorem VerifyChannelDefinitions_ok_iff (defs : ChannelDefinitions) :
    VerifyChannelDefinitions defs = .ok () ↔
      defs.length ≤ MaxOutcomeChannelDefinitionsLength ∧ (∀ e ∈ defs, ChannelValid e.2) ∧
        distinctStreamIDs defs ≤ MaxObservationStreamValuesLength := by
  constructor
  · intro hok
    by_cases hlen : defs.length ≤ MaxOutcomeChannelDefinitionsLength
    · by_cases hval : ∀ e ∈ defs, ChannelValid e.2
      · rw [VerifyChannelDefinitions_of_valid defs hlen hval] at hok
        refine ⟨hlen, hval, ?_⟩
        by_contra hgt
        rw [if_pos (Nat.not_le.1 hgt)] at hok
        cases hok
      · have hex : ∃ e ∈ defs, ¬ ChannelValid e.2 := by
          by_contra hno
          exact hval fun e he => by
            by_contra hne
            exact hno ⟨e, he, hne⟩
        obtain ⟨err, herr⟩ := verifyChannels_of_invalid defs [] hex
        unfold VerifyChannelDefinitions at hok
        rw [if_neg (Nat.not_lt.2 hlen), herr] at hok
        cases hok
    · unfold VerifyChannelDefinitions at hok
      rw [if_pos (Nat.not_le.1 hlen)] at hok
      cases hok
  · rintro ⟨hlen, hval, hdist⟩
    rw [VerifyChannelDefinitions_of_valid defs hlen hval, if_neg (Nat.not_lt.2 hdist)]

theorem succeeds_iff_ok {ε : Type} (r : Except ε Unit) : succeeds r = true ↔ r = .ok () := by
  cases r <;> simp [succeeds]

theorem distinctStreamIDs_perm {defs defs' : ChannelDefinitions} (h : defs.Perm defs') :
    distinctStreamIDs defs = distinctStreamIDs defs' := by
  unfold distinctStreamIDs allStreamIDs
  exact (List.Perm.dedup (List.Perm.flatMap_right _ h)).length_eq

theorem VerifyChannelDefinitions_ok_perm {defs defs' : ChannelDefinitions}
    (h : defs.Perm defs') :
    VerifyChannelDefinitions defs = .ok () ↔ VerifyChannelDefinitions defs' = .ok () := by
  rw [VerifyChannelDefinitions_ok_iff, VerifyChannelDefinitions_ok_iff, h.length_eq,
    distinctStreamIDs_perm h]
  constructor
  · rintro ⟨h1, h2, h3⟩
    exact ⟨h1, fun e he => h2 e (h.mem_iff.2 he), h3⟩
  · rintro ⟨h1, h2, h3⟩
    exact ⟨h1, fun e he => h2 e (h.mem_iff.1 he), h3⟩

theorem VerifyChannelDefinitions_ok_withOpts (f : ChannelID → ChannelDefinition → Bytes)
    (defs : ChannelDefinitions) :
    VerifyChannelDefinitions (withOpts f defs) = .ok () ↔
      VerifyChannelDefinitions defs = .ok () := by
  have hd : distinctStreamIDs (withOpts f defs) = distinctStreamIDs defs := by
    simp [distinctStreamIDs, allStreamIDs, withOpts, List.flatMap_map]
  have hv : (∀ e ∈ withOpts f defs, ChannelValid e.2) ↔ ∀ e ∈ defs, ChannelValid e.2 := by
    constructor
    · intro h e he
      exact h (e.1, { e.2 with Opts := f e.1 e.2 }) (List.mem_map_of_mem _ he)
    · intro h e he
      obtain ⟨e0, he0, rfl⟩ := List.mem_map.1 he
      exact h e0 he0
  have hl : (withOpts f defs).length = defs.length := by simp [withOpts]
  rw [VerifyChannelDefinitions_ok_iff, VerifyChannelDefinitions_ok_iff, hd, hv, hl]

theorem distinctStreamIDs_le_length (defs : ChannelDefinitions) :
    distinctStreamIDs defs ≤ (allStreamIDs defs).length :=
  (List.dedup_sublist _).length_le

theorem distinctStreamIDs_le_of_subset (defs : ChannelDefinitions) (ids : List StreamID)
    (h : ∀ x ∈ allStreamIDs defs, x ∈ ids) : distinctStreamIDs defs ≤ ids.length := by
  unfold distinctStreamIDs
  rw [← List.card_toFinset]
  calc (allStreamIDs defs).toFinset.card ≤ ids.toFinset.card :=
        Finset.card_le_card (fun x hx => List.mem_toFinset.2 (h x (List.mem_toFinset.1 hx)))
    _ ≤ ids.length := List.toFinset_card_le ids

theorem distinctStreamIDs_of_nodup (defs : ChannelDefinitions) (h : (allStreamIDs defs).Nodup) :
    distinctStreamIDs defs = (allStreamIDs defs).length := by
  unfold distinctStreamIDs
  rw [List.Nodup.dedup h]

theorem verifyStreams_eq (channelID : ChannelID) (ss : List Stream)
    (unique : GoMap StreamID Unit) :
    verifyStreams channelID ss unique =
      match ss.find? fun s => decide (s.Aggregator = 0) with
      | some s => .error (.zeroAggregator channelID s.StreamID)
      | none => .ok (setAll unique (ss.map Stream.StreamID)) := by
  induction ss generalizing unique with
  | nil => rfl
  | cons s rest ih =>
    by_cases hs : s.Aggregator = 0
    · simp [verifyStreams, hs, List.find?_cons]
    · simp only [verifyStreams, hs, if_false, List.find?_cons, decide_False, ih]
      rfl

theorem verifyChannel_eq (unique : GoMap StreamID Unit) (channelID : ChannelID)
    (cd : ChannelDefinition) :
    verifyChannel unique channelID cd =
      match channelFailure channelID cd with
      | some err => .error err
      | none => .ok (setAll unique (cd.Streams.map Stream.StreamID)) := by
  unfold verifyChannel channelFailure
  by_cases hlen : cd.Streams.length = 0
  · simp [hlen]
  · rw [if_neg hlen, if_neg hlen, verifyStreams_eq]
    cases hfind : cd.Streams.find? fun s => decide (s.Aggregator = 0) with
    | some s => rfl
    | none =>
      by_cases hf : cd.ReportFormat = ReportFormatEVMPremiumLegacy
      · by_cases h3 : cd.Streams.length = 3
        · simp [hf, h3, VerifyEVMPremiumLegacyChannelDefinition]
        · simp [hf, h3, VerifyEVMPremiumLegacyChannelDefinition]
      · simp [hf]

theorem verifyChannels_eq (defs : ChannelDefinitions) (unique : GoMap StreamID Unit) :
    verifyChannels defs unique =
      match firstChannelFailure defs with
      | some err => .error err
      | none => .ok (setAll unique (allStreamIDs defs)) := by
  induction defs generalizing unique with
  | nil => rfl
  | cons e rest ih =>
    obtain ⟨channelID, cd⟩ := e
    have hall : allStreamIDs ((channelID, cd) :: rest) =
        cd.Streams.map Stream.StreamID ++ allStreamIDs rest := by
      simp [allStreamIDs]
    simp only [verifyChannels, verifyChannel_eq, firstChannelFailure, List.findSome?_cons]
    cases hc : channelFailure channelID cd with
    | some err => rfl
    | none =>
      simp only [ih, hall, setAll_append]
      rfl

/-- The result of `VerifyChannelDefinitions` in closed form. -/
theorem VerifyChannelDefinitions_eq (defs : ChannelDefinitions) :
    VerifyChannelDefinitions defs =
      if defs.length > MaxOutcomeChannelDefinitionsLength then
        .error (.tooManyChannels defs.length)
      else
        match firstChannelFailure defs with
        | some err => .error err
        | none =>
          if distinctStreamIDs defs > MaxObservationStreamValuesLength then
            .error (.tooManyUniqueStreamIDs (distinctStreamIDs defs))
          else .ok () := by
  unfold VerifyChannelDefinitions
  by_cases hlen : defs.length > MaxOutcomeChannelDefinitionsLength
  · rw [if_pos hlen, if_pos hlen]
  · rw [if_neg hlen, if_neg hlen, verifyChannels_eq]
    cases hc : firstChannelFailure defs with
    | some err => rfl
    | none => simp only [setAll_nil_length, distinctStreamIDs]

theorem channelFailure_ne_size (channelID : ChannelID) (cd : ChannelDefinition)
    (err : VerifyError) (h : channelFailure channelID cd = some err) :
    (∀ n, err ≠ .tooManyChannels n) ∧ (∀ n, err ≠ .tooManyUniqueStreamIDs n) := by
  unfold channelFailure at h
  split at h
  · cases h; exact ⟨fun n h' => (by cases h'), fun n h' => (by cases h')⟩
  · split at h
    · cases h; exact ⟨fun n h' => (by cases h'), fun n h' => (by cases h')⟩
    · split at h
      · cases h; exact ⟨fun n h' => (by cases h'), fun n h' => (by cases h')⟩
      · cases h

theorem firstChannelFailure_ne_size (defs : ChannelDefinitions) (err : VerifyError)
    (h : firstChannelFailure defs = some err) :
    (∀ n, err ≠ .tooManyChannels n) ∧ (∀ n, err ≠ .tooManyUniqueStreamIDs n) := by
  unfold firstChannelFailure at h
  obtain ⟨e, _, he⟩ := List.exists_of_findSome?_eq_some h
  exact channelFailure_ne_size e.1 e.2 err he

theorem channelFailure_eq_none_iff (channelID : ChannelID) (cd : ChannelDefinition) :
    channelFailure channelID cd = none ↔ ChannelValid cd := by
  have h := verifyChannel_eq [] channelID cd
  constructor
  · intro hnone
    by_contra hinv
    obtain ⟨err, herr⟩ := verifyChannel_of_invalid [] channelID cd hinv
    rw [hnone, herr] at h
    cases h
  · intro hval
    rw [verifyChannel_of_valid [] channelID cd hval] at h
    cases hc : channelFailure channelID cd with
    | none => rfl
    | some err => rw [hc] at h; cases h

theorem firstChannelFailure_perm_none {defs defs' : ChannelDefinitions} (h : defs.Perm defs') :
    firstChannelFailure defs = none ↔ firstChannelFailure defs' = none := by
  unfold firstChannelFailure
  rw [List.findSome?_eq_none_iff, List.findSome?_eq_none_iff]
  exact ⟨fun hn x hx => hn x (h.mem_iff.2 hx), fun hn x hx => hn x (h.mem_iff.1 hx)⟩

/-- The first invalid channel visited decides the per-channel failure. -/
theorem firstChannelFailure_append (pre post : ChannelDefinitions)
    (e : ChannelID × ChannelDefinition) (hpre : ∀ x ∈ pre, ChannelValid x.2)
    (he : ¬ ChannelValid e.2) :
    firstChannelFailure (pre ++ e :: post) = channelFailure e.1 e.2 := by
  have hpre' : List.findSome? (fun x : ChannelID × ChannelDefinition => channelFailure x.1 x.2)
      pre = none := by
    rw [List.findSome?_eq_none_iff]
    exact fun x hx => (channelFailure_eq_none_iff x.1 x.2).2 (hpre x hx)
  have hsome : (channelFailure e.1 e.2).isSome = true := by
    cases hc : channelFailure e.1 e.2 with
    | none => exact absurd ((channelFailure_eq_none_iff e.1 e.2).1 hc) he
    | some err => rfl
  unfold firstChannelFailure
  rw [List.findSome?_append, hpre',
    List.findSome?_cons_of_isSome (f := fun x : ChannelID × ChannelDefinition =>
      channelFailure x.1 x.2) post hsome]
  rfl

theorem firstChannelFailure_perm_of_unique {defs defs' : ChannelDefinitions}
    (h : defs.Perm defs')
    (huniq : ∀ e₁ ∈ defs, ∀ e₂ ∈ defs, ¬ ChannelValid e₁.2 → ¬ ChannelValid e₂.2 → e₁ = e₂) :
    firstChannelFailure defs' = firstChannelFailure defs := by
  cases hc : firstChannelFailure defs with
  | none => exact (firstChannelFailure_perm_none h).1 hc
  | some err =>
    cases hc' : firstChannelFailure defs' with
    | none => rw [(firstChannelFailure_perm_none h).2 hc'] at hc; cases hc
    | some err' =>
      obtain ⟨e, he, hfe⟩ := List.exists_of_findSome?_eq_some hc
      obtain ⟨e', he', hfe'⟩ := List.exists_of_findSome?_eq_some hc'
      have hinv : ¬ ChannelValid e.2 := fun hv => by
        rw [(channelFailure_eq_none_iff e.1 e.2).2 hv] at hfe; cases hfe
      have hinv' : ¬ ChannelValid e'.2 := fun hv => by
        rw [(channelFailure_eq_none_iff e'.1 e'.2).2 hv] at hfe'; cases hfe'
      have heq : e = e' := huniq e he e' (h.mem_iff.2 he') hinv hinv'
      subst heq
      rw [← hfe, ← hfe']

theorem firstChannelFailure_singleton (e : ChannelID × ChannelDefinition) :
    firstChannelFailure [e] = channelFailure e.1 e.2 := by
  unfold firstChannelFailure
  cases hc : channelFailure e.1 e.2 with
  | none => simp [List.findSome?_cons, hc]
  | some err => simp [List.findSome?_cons, hc]

theorem VerifyChannelDefinitions_tooManyChannels (defs : ChannelDefinitions) (n : Nat)
    (h : VerifyChannelDefinitions defs = .error (.tooManyChannels n)) :
    MaxOutcomeChannelDefinitionsLength < defs.length := by
  rw [VerifyChannelDefinitions_eq] at h
  by_contra hgt
  rw [if_neg hgt] at h
  cases hc : firstChannelFailure defs with
  | some err =>
    rw [hc] at h
    simp only [Except.error.injEq] at h
    exact absurd h ((firstChannelFailure_ne_size defs err hc).1 n)
  | none =>
    rw [hc] at h
    simp only at h
    split at h <;> cases h

theorem allStreamIDs_single_of_ids (channelID : ChannelID) (format : ReportFormat)
    (opts : Bytes) (aggregator : Aggregator) (ids : List StreamID) :
    allStreamIDs [(channelID, ⟨format, ids.map fun i => ⟨i, aggregator⟩, opts⟩)] = ids := by
  simp [allStreamIDs, Function.comp_def]

/-! ## Theorems on `VerifyChannelDefinitions` -/

/-- C1. `VerifyChannelDefinitions` succeeds exactly when the mapping has at most
10,000 channels, every channel has a stream, no stream has a zero Aggregator,
every EVM-premium-legacy channel has exactly 3 streams, and the distinct
StreamIDs number at most 10,000.  Replacing the `Opts` of the channels does not
change the verdict, and neither does visiting the entries in another order. -/
theorem C1_verify_succeeds_iff (defs : ChannelDefinitions) :
    (VerifyChannelDefinitions defs = .ok () ↔
      defs.length ≤ 10000 ∧
      (∀ e ∈ defs, 1 ≤ e.2.Streams.length) ∧
      (∀ e ∈ defs, ∀ s ∈ e.2.Streams, s.Aggregator ≠ 0) ∧
      (∀ e ∈ defs, e.2.ReportFormat = ReportFormatEVMPremiumLegacy → e.2.Streams.length = 3) ∧
      distinctStreamIDs defs ≤ 10000) ∧
    (∀ f : ChannelID → ChannelDefinition → Bytes,
      succeeds (VerifyChannelDefinitions (withOpts f defs)) =
        succeeds (VerifyChannelDefinitions defs)) ∧
    (∀ defs' : ChannelDefinitions, defs.Perm defs' →
      succeeds (VerifyChannelDefinitions defs') = succeeds (VerifyChannelDefinitions defs)) := by
  refine ⟨?_, ?_, ?_⟩
  · rw [VerifyChannelDefinitions_ok_iff]
    simp only [MaxOutcomeChannelDefinitionsLength, MaxObservationStreamValuesLength, ChannelValid]
    constructor
    · rintro ⟨h1, h2, h3⟩
      refine ⟨h1, fun e he => ?_, fun e he => (h2 e he).2.1, fun e he => (h2 e he).2.2, h3⟩
      exact List.length_pos.2 (h2 e he).1
    · rintro ⟨h1, h2, h3, h4, h5⟩
      refine ⟨h1, fun e he => ⟨fun h0 => ?_, h3 e he, h4 e he⟩, h5⟩
      have := h2 e he
      simp [h0] at this
  · intro f
    rw [Bool.eq_iff_iff, succeeds_iff_ok, succeeds_iff_ok]
    exact VerifyChannelDefinitions_ok_withOpts f defs
  · intro defs' h
    rw [Bool.eq_iff_iff, succeeds_iff_ok, succeeds_iff_ok]
    exact (VerifyChannelDefinitions_ok_perm h).symm

/-- C1, at two channels visited in either order: both orders are accepted. -/
theorem C1_verify_succeeds_iff_witness :
    List.Perm [((1 : ChannelID), (⟨ReportFormatEVMPremiumLegacy, [⟨1, 1⟩, ⟨2, 1⟩, ⟨3, 1⟩], []⟩ :
        ChannelDefinition)), (2, ⟨2, [⟨3, 2⟩], [7]⟩)]
      [(2, ⟨2, [⟨3, 2⟩], [7]⟩), (1, ⟨ReportFormatEVMPremiumLegacy, [⟨1, 1⟩, ⟨2, 1⟩, ⟨3, 1⟩], []⟩)] ∧
    succeeds (VerifyChannelDefinitions
      [(2, ⟨2, [⟨3, 2⟩], [7]⟩), (1, ⟨ReportFormatEVMPremiumLegacy, [⟨1, 1⟩, ⟨2, 1⟩, ⟨3, 1⟩], []⟩)]) =
    succeeds (VerifyChannelDefinitions
      [(1, ⟨ReportFormatEVMPremiumLegacy, [⟨1, 1⟩, ⟨2, 1⟩, ⟨3, 1⟩], []⟩), (2, ⟨2, [⟨3, 2⟩], [7]⟩)]) :=
  ⟨List.Perm.swap _ _ _, (C1_verify_succeeds_iff _).2.2 _ (List.Perm.swap _ _ _)⟩

/-! ## Lemmas on `Plugin.ValidateObservation` -/

theorem validateDecoded_ok_iff {σ : Type} (hasPredecessor : Bool) (o : Observation σ) :
    validateDecoded hasPredecessor o = .ok () ↔
      (hasPredecessor = true ∨ o.AttestedPredecessorRetirement = []) ∧
      o.UpdateChannelDefinitions.length ≤ 5 ∧ o.RemoveChannelIDs.length ≤ 5 ∧
      VerifyChannelDefinitions o.UpdateChannelDefinitions = .ok () ∧
      o.StreamValues.length ≤ 10000 := by
  unfold validateDecoded
  simp only [MaxObservationUpdateChannelDefinitionsLength, MaxObservationRemoveChannelIDsLength,
    MaxObservationStreamValuesLength]
  by_cases h1 : hasPredecessor = false ∧ o.AttestedPredecessorRetirement.length ≠ 0
  · rw [if_pos h1]
    obtain ⟨ha, hb⟩ := h1
    have hb' : o.AttestedPredecessorRetirement ≠ [] := fun h0 => hb (by simp [h0])
    simp [ha, hb']
  · rw [if_neg h1]
    have h1' : hasPredecessor = true ∨ o.AttestedPredecessorRetirement = [] := by
      by_cases hp : hasPredecessor = true
      · exact Or.inl hp
      · refine Or.inr ?_
        by_contra hne
        exact h1 ⟨by simpa using hp, fun h0 => hne (List.length_eq_zero.1 h0)⟩
    by_cases h2 : o.UpdateChannelDefinitions.length > 5
    · rw [if_pos h2]
      constructor
      · intro h; cases h
      · rintro ⟨_, h, _⟩; omega
    · rw [if_neg h2]
      by_cases h3 : o.RemoveChannelIDs.length > 5
      · rw [if_pos h3]
        constructor
        · intro h; cases h
        · rintro ⟨_, _, h, _⟩; omega
      · rw [if_neg h3]
        cases hv : VerifyChannelDefinitions o.UpdateChannelDefinitions with
        | error err =>
          constructor
          · intro h; cases h
          · rintro ⟨_, _, _, h, _⟩; cases h
        | ok u =>
          by_cases h4 : o.StreamValues.length > 10000
          · simp only [if_pos h4]
            constructor
            · intro h; cases h
            · rintro ⟨_, _, _, _, h⟩; omega
          · simp only [if_neg h4]
            refine ⟨fun _ => ⟨h1', by omega, by omega, ?_, by omega⟩, fun _ => ?_⟩ <;>
              first | rfl | trivial

theorem ValidateObservation_of_decoded {σ ρ : Type} (p : Plugin σ ρ) (outctx : OutcomeContext)
    (query : Query) (ao : AttributedObservation) (o : Observation σ)
    (hseq : 1 ≤ outctx.SeqNr) (hfirst : outctx.SeqNr = 1 → ao.Observation.length = 0)
    (hdec : p.ObservationCodec.Decode ao.Observation = .ok o) :
    p.ValidateObservation outctx query ao =
      validateDecoded p.PredecessorConfigDigest.isSome o := by
  unfold Plugin.ValidateObservation
  rw [if_neg (by omega), if_neg (fun h => h.2 (hfirst h.1)), hdec]

theorem exists_error_of_ne_ok {ε : Type} (r : Except ε Unit) (h : r ≠ .ok ()) :
    ∃ err, r = .error err := by
  cases r with
  | error err => exact ⟨err, rfl⟩
  | ok u => exact absurd rfl h

/-- With a predecessor configured, the checks after decoding do not read
`AttestedPredecessorRetirement`. -/
theorem validateDecoded_congr {σ : Type} (o₁ o₂ : Observation σ)
    (hr : o₁.RemoveChannelIDs = o₂.RemoveChannelIDs)
    (hu : o₁.UpdateChannelDefinitions = o₂.UpdateChannelDefinitions)
    (hs : o₁.StreamValues = o₂.StreamValues) :
    validateDecoded true o₁ = validateDecoded true o₂ := by
  unfold validateDecoded
  simp [hr, hu, hs]

theorem validateDecoded_ne_tooManyChannels {σ : Type} (hasPredecessor : Bool)
    (o : Observation σ) (n : Nat) :
    validateDecoded hasPredecessor o ≠
      .error (.updateChannelDefinitionsInvalid (.tooManyChannels n)) := by
  intro h
  unfold validateDecoded at h
  split at h
  · cases h
  · split at h
    · cases h
    · next hlen =>
      split at h
      · cases h
      · cases hv : VerifyChannelDefinitions o.UpdateChannelDefinitions with
        | error err =>
          rw [hv] at h
          simp only [Except.error.injEq, ValidateError.updateChannelDefinitionsInvalid.injEq] at h
          subst h
          have := VerifyChannelDefinitions_tooManyChannels _ n hv
          simp only [MaxOutcomeChannelDefinitionsLength,
            MaxObservationUpdateChannelDefinitionsLength] at this hlen
          omega
        | ok u =>
          rw [hv] at h
          simp only at h
          split at h <;> cases h

theorem validateDecoded_of_verify_error {σ : Type} (hasPredecessor : Bool)
    (o : Observation σ) (err : VerifyError)
    (ha : o.AttestedPredecessorRetirement = [])
    (hu : o.UpdateChannelDefinitions.length ≤ 5) (hr : o.RemoveChannelIDs.length ≤ 5)
    (hv : VerifyChannelDefinitions o.UpdateChannelDefinitions = .error err) :
    validateDecoded hasPredecessor o = .error (.updateChannelDefinitionsInvalid err) := by
  unfold validateDecoded
  rw [if_neg (by simp [ha]),
    if_neg (by simpa [MaxObservationUpdateChannelDefinitionsLength] using hu),
    if_neg (by simpa [MaxObservationRemoveChannelIDsLength] using hr), hv]

/-! ## Theorems on `Plugin.ValidateObservation` -/

/-- C2. For any codec, `ValidateObservation` succeeds exactly when the sequence
number is at least 1, the payload is empty if the sequence number is 1, the
payload decodes to an observation `o`, the predecessor digest is present or
`o.AttestedPredecessorRetirement` is empty, `o` has at most 5 update channels and
at most 5 remove ids, its update channels pass `VerifyChannelDefinitions`, and it
has at most 10,000 stream values. -/
theorem C2_validate_succeeds_iff {σ ρ : Type} (p : Plugin σ ρ) (outctx : OutcomeContext)
    (query : Query) (ao : AttributedObservation) :
    p.ValidateObservation outctx query ao = .ok () ↔
      1 ≤ outctx.SeqNr ∧
      (outctx.SeqNr = 1 → ao.Observation.length = 0) ∧
      ∃ o, p.ObservationCodec.Decode ao.Observation = .ok o ∧
        (p.PredecessorConfigDigest ≠ none ∨ o.AttestedPredecessorRetirement = []) ∧
        o.UpdateChannelDefinitions.length ≤ 5 ∧
        o.RemoveChannelIDs.length ≤ 5 ∧
        VerifyChannelDefinitions o.UpdateChannelDefinitions = .ok () ∧
        o.StreamValues.length ≤ 10000 := by
  have hsome : ∀ d : Option ConfigDigest, d.isSome = true ↔ d ≠ none := by
    intro d; cases d <;> simp
  constructor
  · intro hok
    by_cases hseq : outctx.SeqNr < 1
    · simp [Plugin.ValidateObservation, hseq] at hok
    · by_cases hfirst : outctx.SeqNr = 1 ∧ ao.Observation.length ≠ 0
      · simp only [Plugin.ValidateObservation, if_neg hseq, if_pos hfirst] at hok
        cases hok
      · have hfirst' : outctx.SeqNr = 1 → ao.Observation.length = 0 := by
          intro h1
          by_contra hne
          exact hfirst ⟨h1, hne⟩
        cases hdec : p.ObservationCodec.Decode ao.Observation with
        | error err =>
          simp only [Plugin.ValidateObservation, if_neg hseq, if_neg hfirst, hdec] at hok
          cases hok
        | ok o =>
          rw [ValidateObservation_of_decoded p outctx query ao o (by omega) hfirst' hdec,
            validateDecoded_ok_iff, hsome] at hok
          exact ⟨by omega, hfirst', o, rfl, hok⟩
  · rintro ⟨hseq, hfirst, o, hdec, hrest⟩
    rw [ValidateObservation_of_decoded p outctx query ao o hseq hfirst hdec,
      validateDecoded_ok_iff, hsome]
    exact hrest

/-! ## Lemmas on `subtractChannelDefinitions` -/

theorem differenceListOf_eq (A B : ChannelDefinitions) :
    differenceListOf A B =
      (A.filter fun e => e.1 ∉ GoMap.keys B).map fun e => ⟨e.2, e.1⟩ := by
  unfold differenceListOf
  induction A with
  | nil => rfl
  | cons e rest ih =>
    by_cases hk : e.1 ∈ GoMap.keys B
    · have hg : GoMap.get? B e.1 ≠ none := fun h => (GoMap.get?_eq_none_iff B e.1).1 h hk
      obtain ⟨v, hv⟩ := Option.ne_none_iff_exists'.1 hg
      simp [List.filterMap_cons, hv, hk, ih]
    · have hg : GoMap.get? B e.1 = none := (GoMap.get?_eq_none_iff B e.1).2 hk
      simp [List.filterMap_cons, hg, hk, ih]

theorem differenceListOf_ids (A B : ChannelDefinitions) :
    (differenceListOf A B).map ChannelDefinitionWithID.ChannelID = missingKeys A B := by
  rw [differenceListOf_eq, missingKeys]
  induction A with
  | nil => rfl
  | cons e rest ih =>
    unfold GoMap.keys at ih ⊢
    by_cases hk : e.1 ∈ List.map Prod.fst B
    · simpa [List.filter_cons, hk] using ih
    · simpa [List.filter_cons, hk] using ih

theorem mem_differenceListOf (A B : ChannelDefinitions) (d : ChannelDefinitionWithID) :
    d ∈ differenceListOf A B ↔ toEntry d ∈ A ∧ d.ChannelID ∉ GoMap.keys B := by
  rw [differenceListOf_eq]
  simp only [List.mem_map, List.mem_filter, decide_eq_true_eq, toEntry]
  constructor
  · rintro ⟨e, ⟨he, hk⟩, rfl⟩
    exact ⟨he, hk⟩
  · rintro ⟨he, hk⟩
    exact ⟨(d.ChannelID, d.ChannelDefinition), ⟨he, hk⟩, rfl⟩

theorem missingKeys_nodup (A B : ChannelDefinitions) (hA : GoMap.WF A) :
    (missingKeys A B).Nodup :=
  List.Nodup.filter _ hA

theorem sortSlice_perm {α : Type} (less : α → α → Bool) (s : List α) :
    (sortSlice less s).Perm s :=
  List.perm_insertionSort _ s

theorem sortSlice_lessChannelID_sorted (s : List ChannelDefinitionWithID) :
    (sortSlice lessChannelID s).Pairwise fun a b => a.ChannelID ≤ b.ChannelID := by
  haveI : IsTotal ChannelDefinitionWithID (fun a b => lessChannelID b a = false) :=
    ⟨fun a b => by
      simp only [lessChannelID, decide_eq_false_iff_not]
      by_cases h : b.ChannelID < a.ChannelID
      · exact Or.inr (Nat.lt_asymm h)
      · exact Or.inl h⟩
  haveI : IsTrans ChannelDefinitionWithID (fun a b => lessChannelID b a = false) :=
    ⟨fun a b c => by
      simp only [lessChannelID, decide_eq_false_iff_not]
      exact fun h1 h2 => Nat.not_lt.2 (Nat.le_trans (Nat.not_lt.1 h1) (Nat.not_lt.1 h2))⟩
  have h := List.sorted_insertionSort (fun a b => lessChannelID b a = false) s
  refine List.Pairwise.imp ?_ h
  intro a b hab
  simp only [lessChannelID, decide_eq_false_iff_not] at hab
  exact Nat.not_lt.1 hab

/-- Sorting a slice with pairwise distinct ChannelIDs leaves it strictly
ascending. -/
theorem sortSlice_strict (s : List ChannelDefinitionWithID)
    (hnd : (s.map ChannelDefinitionWithID.ChannelID).Nodup) :
    (sortSlice lessChannelID s).Pairwise fun a b => a.ChannelID < b.ChannelID := by
  have hp := sortSlice_perm lessChannelID s
  have hnd' : ((sortSlice lessChannelID s).map ChannelDefinitionWithID.ChannelID).Nodup :=
    ((hp.map _).nodup_iff).2 hnd
  have hne : (sortSlice lessChannelID s).Pairwise fun a b => a.ChannelID ≠ b.ChannelID :=
    List.pairwise_map.1 hnd'
  refine List.Pairwise.imp ?_ ((sortSlice_lessChannelID_sorted s).and hne)
  intro a b hab
  exact Nat.lt_of_le_of_ne hab.1 hab.2

theorem sortSlice_eq_of_perm (s t : List ChannelDefinitionWithID) (h : s.Perm t)
    (hnd : (s.map ChannelDefinitionWithID.ChannelID).Nodup) :
    sortSlice lessChannelID s = sortSlice lessChannelID t := by
  haveI : IsAntisymm ChannelDefinitionWithID (fun a b => a.ChannelID < b.ChannelID) :=
    ⟨fun a b h1 h2 => absurd h1 (Nat.lt_asymm h2)⟩
  have hnd' : (t.map ChannelDefinitionWithID.ChannelID).Nodup := ((h.map _).nodup_iff).1 hnd
  exact List.eq_of_perm_of_sorted
    (((sortSlice_perm lessChannelID s).trans h).trans (sortSlice_perm lessChannelID t).symm)
    (sortSlice_strict s hnd) (sortSlice_strict t hnd')

theorem foldl_set_eq_append (l : List ChannelDefinitionWithID) (acc : ChannelDefinitions)
    (h : (GoMap.keys acc ++ l.map ChannelDefinitionWithID.ChannelID).Nodup) :
    l.foldl (fun difference defWithID =>
      GoMap.set difference defWithID.ChannelID defWithID.ChannelDefinition) acc =
      acc ++ l.map toEntry := by
  induction l generalizing acc with
  | nil => simp
  | cons d rest ih =>
    have hd : d.ChannelID ∉ GoMap.keys acc := by
      intro hmem
      have := (List.nodup_append.1 h).2.2
      exact this hmem (by simp)
    have hset : GoMap.set acc d.ChannelID d.ChannelDefinition = acc ++ [toEntry d] := by
      clear h ih
      induction acc with
      | nil => rfl
      | cons e acc' ih' =>
        obtain ⟨k', v'⟩ := e
        have hk : ¬ k' = d.ChannelID := fun hk => hd (by simp [GoMap.keys, hk])
        have hd' : d.ChannelID ∉ GoMap.keys acc' := fun hm => hd (by
          simp only [GoMap.keys, List.map_cons, List.mem_cons]
          exact Or.inr hm)
        simp [GoMap.set, hk, ih' hd']
    rw [List.foldl_cons, hset, ih]
    · simp
    · have : GoMap.keys (acc ++ [toEntry d]) = GoMap.keys acc ++ [d.ChannelID] := by
        simp [GoMap.keys, toEntry]
      rw [this, List.append_assoc]
      simpa using h

theorem toDifference_eq (l : List ChannelDefinitionWithID)
    (h : (l.map ChannelDefinitionWithID.ChannelID).Nodup) :
    toDifference l = l.map toEntry := by
  unfold toDifference
  rw [foldl_set_eq_append l [] (by simpa [GoMap.keys] using h)]
  simp

/-- For a limit that is not negative the function returns, and what it returns
is the sorted difference list cut at `limit`, entry by entry. -/
theorem subtractChannelDefinitions_eq (A B : ChannelDefinitions) (limit : Int)
    (hA : GoMap.WF A) (hl : 0 ≤ limit) :
    subtractChannelDefinitions A B limit =
      some (((sortSlice lessChannelID (differenceListOf A B)).take limit.toNat).map toEntry) := by
  have hnd : ((differenceListOf A B).map ChannelDefinitionWithID.ChannelID).Nodup := by
    rw [differenceListOf_ids]; exact missingKeys_nodup A B hA
  have hsnd : ((sortSlice lessChannelID (differenceListOf A B)).map
      ChannelDefinitionWithID.ChannelID).Nodup :=
    (((sortSlice_perm lessChannelID _).map _).nodup_iff).2 hnd
  unfold subtractChannelDefinitions
  simp only
  split
  · rw [if_neg (by omega), toDifference_eq]
    exact List.Nodup.sublist (List.Sublist.map _ (List.take_sublist _ _)) hsnd
  · next hle =>
    rw [toDifference_eq _ hsnd, List.take_of_length_le (by omega)]

theorem missingKeys_nil (A : ChannelDefinitions) : missingKeys A [] = GoMap.keys A := by
  simp [missingKeys, GoMap.keys]

/-- What `subtractChannelDefinitions` returns for a limit that is not negative:
a mapping with strictly ascending keys, of the size `min limit n`, whose entries
are entries of the minuend with a key outside the subtrahend, and whose keys lie
below every eligible key that was left out. -/
theorem subtractChannelDefinitions_spec (A B : ChannelDefinitions) (limit : Int)
    (hA : GoMap.WF A) (hl : 0 ≤ limit) :
    ∃ R : ChannelDefinitions, subtractChannelDefinitions A B limit = some R ∧
      (GoMap.keys R).Pairwise (· < ·) ∧
      R.length = min limit.toNat (missingKeys A B).length ∧
      (∀ e ∈ R, e ∈ A ∧ e.1 ∉ GoMap.keys B) ∧
      (∀ k ∈ missingKeys A B, k ∉ GoMap.keys R → ∀ k' ∈ GoMap.keys R, k' < k) := by
  have hnd : ((differenceListOf A B).map ChannelDefinitionWithID.ChannelID).Nodup := by
    rw [differenceListOf_ids]; exact missingKeys_nodup A B hA
  have hstrict := sortSlice_strict (differenceListOf A B) hnd
  have hperm := sortSlice_perm lessChannelID (differenceListOf A B)
  generalize hS : sortSlice lessChannelID (differenceListOf A B) = S at hstrict hperm
  have hkeys : GoMap.keys ((S.take limit.toNat).map toEntry) =
      (S.take limit.toNat).map ChannelDefinitionWithID.ChannelID := by
    simp [GoMap.keys, toEntry, Function.comp_def]
  refine ⟨(S.take limit.toNat).map toEntry, ?_, ?_, ?_, ?_, ?_⟩
  · rw [subtractChannelDefinitions_eq A B limit hA hl, hS]
  · rw [hkeys, List.pairwise_map]
    exact hstrict.sublist (List.take_sublist _ _)
  · rw [List.length_map, List.length_take, hperm.length_eq, ← differenceListOf_ids,
      List.length_map]
  · intro e he
    obtain ⟨d, hd, rfl⟩ := List.mem_map.1 he
    have hdD : d ∈ differenceListOf A B := hperm.mem_iff.1 (List.mem_of_mem_take hd)
    exact (mem_differenceListOf A B d).1 hdD
  · intro k hk hkR k' hk'
    rw [hkeys] at hkR hk'
    rw [← differenceListOf_ids] at hk
    obtain ⟨d, hdD, rfl⟩ := List.mem_map.1 hk
    obtain ⟨d', hd', rfl⟩ := List.mem_map.1 hk'
    have hdS : d ∈ S.take limit.toNat ++ S.drop limit.toNat := by
      rw [List.take_append_drop]; exact hperm.mem_iff.2 hdD
    have hdrop : d ∈ S.drop limit.toNat := by
      rcases List.mem_append.1 hdS with h | h
      · exact absurd (List.mem_map_of_mem _ h) hkR
      · exact h
    have hpw : (S.take limit.toNat ++ S.drop limit.toNat).Pairwise
        fun a b => a.ChannelID < b.ChannelID := by
      rw [List.take_append_drop]; exact hstrict
    exact (List.pairwise_append.1 hpw).2.2 d' hd' d hdrop

theorem GoMap.wf_of_pairwise_lt (m : ChannelDefinitions)
    (h : (GoMap.keys m).Pairwise (· < ·)) : GoMap.WF m :=
  List.Pairwise.imp (fun hab => Nat.ne_of_lt hab) h

theorem differenceListOf_perm {A A' B B' : ChannelDefinitions} (hpA : A.Perm A')
    (hpB : B.Perm B') : (differenceListOf A B).Perm (differenceListOf A' B') := by
  have hfun : (fun e : ChannelID × ChannelDefinition => decide (e.1 ∉ GoMap.keys B)) =
      fun e => decide (e.1 ∉ GoMap.keys B') := by
    funext e
    have : e.1 ∈ GoMap.keys B ↔ e.1 ∈ GoMap.keys B' := (hpB.map Prod.fst).mem_iff
    simp [this]
  rw [differenceListOf_eq, differenceListOf_eq, hfun]
  exact (hpA.filter _).map _

theorem subtractChannelDefinitions_perm {A A' B B' : ChannelDefinitions} (limit : Int)
    (hA : GoMap.WF A) (hpA : A.Perm A') (hpB : B.Perm B') :
    subtractChannelDefinitions A' B' limit = subtractChannelDefinitions A B limit := by
  have hnd : ((differenceListOf A B).map ChannelDefinitionWithID.ChannelID).Nodup := by
    rw [differenceListOf_ids]; exact missingKeys_nodup A B hA
  have hS := sortSlice_eq_of_perm _ _ (differenceListOf_perm hpA hpB) hnd
  unfold subtractChannelDefinitions
  rw [hS]

/-! ## Theorems on `subtractChannelDefinitions` -/

/-- C3. For a duplicate-key-free minuend `A`, any subtrahend `B` and a limit that
is not negative, `subtractChannelDefinitions A B limit` returns a mapping `R`
with `min limit n` entries, `n` the number of keys of `A` that are not keys of
`B`; every key of `R` is a key of `A` and not of `B` and maps to the same
definition as in `A`; and every key of `A` outside `B` that is not in `R` is
larger than every key of `R`.  With the empty subtrahend and `limit ≤ |A|` the
result has exactly `limit` entries, the `limit` smallest keys of `A`. -/
theorem C3_subtract_restricts_to_smallest (A B : ChannelDefinitions) (limit : Int)
    (hA : GoMap.WF A) (hl : 0 ≤ limit) :
    (∃ R : ChannelDefinitions, subtractChannelDefinitions A B limit = some R ∧
      GoMap.WF R ∧
      R.length = min limit.toNat (missingKeys A B).length ∧
      (∀ k v, GoMap.get? R k = some v →
        GoMap.get? A k = some v ∧ k ∈ GoMap.keys A ∧ k ∉ GoMap.keys B) ∧
      (∀ k ∈ GoMap.keys A, k ∉ GoMap.keys B → k ∉ GoMap.keys R →
        ∀ k' ∈ GoMap.keys R, k' < k)) ∧
    (limit ≤ A.length →
      ∃ R : ChannelDefinitions, subtractChannelDefinitions A [] limit = some R ∧
        GoMap.WF R ∧ (R.length : Int) = limit ∧
        (∀ k v, GoMap.get? R k = some v → GoMap.get? A k = some v) ∧
        (∀ k ∈ GoMap.keys A, k ∉ GoMap.keys R → ∀ k' ∈ GoMap.keys R, k' < k)) := by
  constructor
  · obtain ⟨R, hR, hsorted, hlen, hmem, hleft⟩ := subtractChannelDefinitions_spec A B limit hA hl
    have hwf := GoMap.wf_of_pairwise_lt R hsorted
    refine ⟨R, hR, hwf, hlen, ?_, ?_⟩
    · intro k v hkv
      have hin := (GoMap.get?_eq_some_iff R k v hwf).1 hkv
      obtain ⟨hA', hB'⟩ := hmem (k, v) hin
      exact ⟨(GoMap.get?_eq_some_iff A k v hA).2 hA', List.mem_map_of_mem Prod.fst hA', hB'⟩
    · intro k hkA hkB hkR
      exact hleft k (by simp [missingKeys, hkA, hkB]) hkR
  · intro hle
    obtain ⟨R, hR, hsorted, hlen, hmem, hleft⟩ := subtractChannelDefinitions_spec A [] limit hA hl
    have hwf := GoMap.wf_of_pairwise_lt R hsorted
    rw [missingKeys_nil] at hlen hleft
    refine ⟨R, hR, hwf, ?_, ?_, hleft⟩
    · have hk : (GoMap.keys A).length = A.length := by simp [GoMap.keys]
      rw [hlen, hk]
      omega
    · intro k v hkv
      have hin := (GoMap.get?_eq_some_iff R k v hwf).1 hkv
      exact (GoMap.get?_eq_some_iff A k v hA).2 (hmem (k, v) hin).1

/-- C3, at a minuend of three channels visited in the order 3, 1, 2, a subtrahend
holding channel 2, and limit 1. -/
theorem C3_subtract_restricts_to_smallest_witness :
    GoMap.WF ([(3, ⟨2, [⟨1, 1⟩], []⟩), (1, ⟨2, [⟨2, 1⟩], []⟩), (2, ⟨2, [⟨3, 1⟩], []⟩)] :
      ChannelDefinitions) ∧ (0 : Int) ≤ 1 ∧
    ∃ R : ChannelDefinitions,
      subtractChannelDefinitions
        [(3, ⟨2, [⟨1, 1⟩], []⟩), (1, ⟨2, [⟨2, 1⟩], []⟩), (2, ⟨2, [⟨3, 1⟩], []⟩)]
        [(2, ⟨1, [], []⟩)] 1 = some R ∧
      ∀ k v, GoMap.get? R k = some v →
        GoMap.get? ([(3, ⟨2, [⟨1, 1⟩], []⟩), (1, ⟨2, [⟨2, 1⟩], []⟩), (2, ⟨2, [⟨3, 1⟩], []⟩)] :
          ChannelDefinitions) k = some v ∧
        k ∈ GoMap.keys ([(3, ⟨2, [⟨1, 1⟩], []⟩), (1, ⟨2, [⟨2, 1⟩], []⟩),
          (2, ⟨2, [⟨3, 1⟩], []⟩)] : ChannelDefinitions) ∧
        k ∉ GoMap.keys ([(2, ⟨1, [], []⟩)] : ChannelDefinitions) :=
  ⟨by simp [GoMap.WF, GoMap.keys], by decide,
    let ⟨R, hR, _, _, hget, _⟩ :=
      (C3_subtract_restricts_to_smallest
        [(3, ⟨2, [⟨1, 1⟩], []⟩), (1, ⟨2, [⟨2, 1⟩], []⟩), (2, ⟨2, [⟨3, 1⟩], []⟩)]
        [(2, ⟨1, [], []⟩)] 1 (by simp [GoMap.WF, GoMap.keys]) (by decide)).1
    ⟨R, hR, hget⟩⟩

/-- C4. With each mapping the list of its entries in iteration order, the
minuend duplicate-key-free and the limit not negative, permuting the entries of
the minuend and of the subtrahend leaves the result of
`subtractChannelDefinitions` unchanged, and a mapping is returned. -/
theorem C4_subtract_iteration_order_independent (A A' B B' : ChannelDefinitions)
    (limit : Int) (hA : GoMap.WF A) (hpA : A.Perm A') (hpB : B.Perm B') (hl : 0 ≤ limit) :
    subtractChannelDefinitions A' B' limit = subtractChannelDefinitions A B limit ∧
      ∃ R, subtractChannelDefinitions A B limit = some R := by
  refine ⟨subtractChannelDefinitions_perm limit hA hpA hpB, ?_⟩
  exact ⟨_, subtractChannelDefinitions_eq A B limit hA hl⟩

/-- C4, at a minuend and a subtrahend of two channels each, both swapped. -/
theorem C4_subtract_iteration_order_independent_witness :
    GoMap.WF ([(3, ⟨2, [⟨1, 1⟩], []⟩), (1, ⟨2, [⟨2, 1⟩], []⟩)] : ChannelDefinitions) ∧
    (0 : Int) ≤ 1 ∧
    subtractChannelDefinitions
        [(1, ⟨2, [⟨2, 1⟩], []⟩), (3, ⟨2, [⟨1, 1⟩], []⟩)]
        [(5, ⟨1, [], []⟩), (4, ⟨1, [], []⟩)] 1 =
      subtractChannelDefinitions
        [(3, ⟨2, [⟨1, 1⟩], []⟩), (1, ⟨2, [⟨2, 1⟩], []⟩)]
        [(4, ⟨1, [], []⟩), (5, ⟨1, [], []⟩)] 1 :=
  ⟨by simp [GoMap.WF, GoMap.keys], by decide,
    (C4_subtract_iteration_order_independent _ _ _ _ 1 (by simp [GoMap.WF, GoMap.keys])
      (List.Perm.swap _ _ _) (List.Perm.swap _ _ _) (by decide)).1⟩

/-- C5. A mapping with more than 10,000 channels fails with the
too-many-channels failure, whatever its channels contain; a mapping with exactly
10,000 channels, each valid, that reference at most 10,000 distinct StreamIDs
succeeds. -/
theorem C5_channel_limit (defs : ChannelDefinitions) :
    (10000 < defs.length →
      VerifyChannelDefinitions defs = .error (.tooManyChannels defs.length)) ∧
    (defs.length = 10000 → (∀ e ∈ defs, ChannelValid e.2) → distinctStreamIDs defs ≤ 10000 →
      VerifyChannelDefinitions defs = .ok ()) := by
  constructor
  · intro h
    unfold VerifyChannelDefinitions
    rw [if_pos (by simpa [MaxOutcomeChannelDefinitionsLength] using h)]
  · intro hlen hval hdist
    exact (VerifyChannelDefinitions_ok_iff defs).2
      ⟨by simp [MaxOutcomeChannelDefinitionsLength, hlen], hval,
        by simpa [MaxObservationStreamValuesLength] using hdist⟩

/-- C5, at 10,001 channels without streams, and at 10,000 valid channels that
all read stream 1. -/
theorem C5_channel_limit_witness :
    (10000 < ((List.range 10001).map fun i => (i, (⟨2, [], []⟩ : ChannelDefinition))).length ∧
      VerifyChannelDefinitions
          ((List.range 10001).map fun i => (i, (⟨2, [], []⟩ : ChannelDefinition))) =
        .error (.tooManyChannels
          ((List.range 10001).map fun i => (i, (⟨2, [], []⟩ : ChannelDefinition))).length)) ∧
    (((List.range 10000).map fun i => (i, (⟨2, [⟨1, 1⟩], []⟩ : ChannelDefinition))).length =
        10000 ∧
      VerifyChannelDefinitions
          ((List.range 10000).map fun i => (i, (⟨2, [⟨1, 1⟩], []⟩ : ChannelDefinition))) =
        .ok ()) :=
  ⟨⟨by simp, (C5_channel_limit _).1 (by simp)⟩,
    ⟨by simp, (C5_channel_limit _).2 (by simp)
      (by
        intro e he
        obtain ⟨i, _, rfl⟩ := List.mem_map.1 he
        simp [ChannelValid, ReportFormatEVMPremiumLegacy])
      (by
        refine Nat.le_trans (distinctStreamIDs_le_of_subset _ [1] ?_) (by simp)
        intro x hx
        simp [allStreamIDs] at hx
        simp [hx.2])⟩⟩

/-- C6. For a mapping of at most 10,000 channels, each valid,
`VerifyChannelDefinitions` fails with the too-many-unique-stream-IDs failure when
the distinct StreamIDs number more than 10,000 and succeeds otherwise, however
many stream entries the channels hold in total. -/
theorem C6_distinct_stream_limit (defs : ChannelDefinitions) (hlen : defs.length ≤ 10000)
    (hval : ∀ e ∈ defs, ChannelValid e.2) :
    (10000 < distinctStreamIDs defs →
      VerifyChannelDefinitions defs =
        .error (.tooManyUniqueStreamIDs (distinctStreamIDs defs))) ∧
    (distinctStreamIDs defs ≤ 10000 → VerifyChannelDefinitions defs = .ok ()) ∧
    (10000 < (allStreamIDs defs).length → distinctStreamIDs defs ≤ 10000 →
      VerifyChannelDefinitions defs = .ok ()) := by
  have h := VerifyChannelDefinitions_of_valid defs
    (by simpa [MaxOutcomeChannelDefinitionsLength] using hlen) hval
  simp only [MaxObservationStreamValuesLength] at h
  refine ⟨fun hgt => ?_, fun hle => ?_, fun _ hle => ?_⟩
  · rw [h, if_pos hgt]
  · rw [h, if_neg (Nat.not_lt.2 hle)]
  · rw [h, if_neg (Nat.not_lt.2 hle)]

/-- C6, at one channel holding 10,001 streams with pairwise distinct ids, which
fails, and at one channel holding stream 7 10,001 times, which succeeds. -/
theorem C6_distinct_stream_limit_witness :
    (VerifyChannelDefinitions
        [(1, ⟨2, (List.range 10001).map fun i => ⟨i, 1⟩, []⟩)] =
      .error (.tooManyUniqueStreamIDs (distinctStreamIDs
        [(1, ⟨2, (List.range 10001).map fun i => ⟨i, 1⟩, []⟩)])) ∧
      distinctStreamIDs [(1, ⟨2, (List.range 10001).map fun i => ⟨i, 1⟩, []⟩)] = 10001) ∧
    (10000 < (allStreamIDs [(1, ⟨2, (List.range 10001).map fun _ => ⟨7, 1⟩, []⟩)]).length ∧
      VerifyChannelDefinitions [(1, ⟨2, (List.range 10001).map fun _ => ⟨7, 1⟩, []⟩)] = .ok ()) :=
  have hall : allStreamIDs [(1, ⟨2, (List.range 10001).map fun i => ⟨i, 1⟩, []⟩)] =
      List.range 10001 :=
    allStreamIDs_single_of_ids 1 2 [] 1 (List.range 10001)
  have hdist : distinctStreamIDs [(1, ⟨2, (List.range 10001).map fun i => ⟨i, 1⟩, []⟩)] =
      10001 := by
    rw [distinctStreamIDs_of_nodup _ (by rw [hall]; exact List.nodup_range _), hall,
      List.length_range]
  ⟨⟨(C6_distinct_stream_limit _ (by simp)
      (by simp [ChannelValid, ReportFormatEVMPremiumLegacy])).1 (by rw [hdist]; decide), hdist⟩,
    ⟨by simp [allStreamIDs, -List.map_const, -List.map_const'],
      (C6_distinct_stream_limit _ (by simp only [List.length_singleton]; decide)
        (by simp [ChannelValid, ReportFormatEVMPremiumLegacy, -List.map_const,
          -List.map_const'])).2.2
        (by simp [allStreamIDs, -List.map_const, -List.map_const'])
        (by
          refine Nat.le_trans (distinctStreamIDs_le_of_subset _ [7] ?_) (by simp)
          intro x hx
          simp only [allStreamIDs, List.flatMap_cons, List.flatMap_nil, List.append_nil,
            List.map_map, List.mem_map] at hx
          obtain ⟨i, _, rfl⟩ := hx
          simp)⟩⟩

/-- C7. A mapping of at most 10,000 channels that contains an
EVM-premium-legacy channel whose stream count is not 3 fails; a mapping whose
only channel is EVM premium legacy with exactly 3 streams of non-zero Aggregator
succeeds. -/
theorem C7_legacy_needs_three_streams (defs : ChannelDefinitions) (channelID : ChannelID)
    (s1 s2 s3 : Stream) (opts : Bytes) :
    (defs.length ≤ 10000 →
      (∃ e ∈ defs, e.2.ReportFormat = ReportFormatEVMPremiumLegacy ∧ e.2.Streams.length ≠ 3) →
      ∃ err, VerifyChannelDefinitions defs = .error err) ∧
    (s1.Aggregator ≠ 0 → s2.Aggregator ≠ 0 → s3.Aggregator ≠ 0 →
      VerifyChannelDefinitions
        [(channelID, ⟨ReportFormatEVMPremiumLegacy, [s1, s2, s3], opts⟩)] = .ok ()) := by
  constructor
  · rintro - ⟨e, he, hfmt, h3⟩
    cases hres : VerifyChannelDefinitions defs with
    | error err => exact ⟨err, rfl⟩
    | ok u =>
      have hok : VerifyChannelDefinitions defs = .ok () := hres
      exact absurd (((VerifyChannelDefinitions_ok_iff defs).1 hok).2.1 e he).2.2 (fun h => h3 (h hfmt))
  · intro h1 h2 h3
    refine (VerifyChannelDefinitions_ok_iff _).2 ⟨by simp [MaxOutcomeChannelDefinitionsLength], ?_, ?_⟩
    · intro e he
      simp only [List.mem_singleton] at he
      subst he
      refine ⟨by simp, ?_, fun _ => rfl⟩
      intro s hs
      simp only [List.mem_cons, List.mem_singleton, List.not_mem_nil, or_false] at hs
      rcases hs with rfl | rfl | rfl <;> assumption
    · refine Nat.le_trans (distinctStreamIDs_le_length _) ?_
      simp [allStreamIDs, MaxObservationStreamValuesLength]

/-- C7, at a mapping whose second channel is EVM premium legacy with two
streams, and at a single EVM-premium-legacy channel with three streams. -/
theorem C7_legacy_needs_three_streams_witness :
    (∃ err, VerifyChannelDefinitions
      [(1, ⟨2, [⟨1, 1⟩], []⟩), (2, ⟨ReportFormatEVMPremiumLegacy, [⟨1, 1⟩, ⟨2, 1⟩], []⟩)] =
        .error err) ∧
    VerifyChannelDefinitions
      [(9, ⟨ReportFormatEVMPremiumLegacy, [⟨1, 1⟩, ⟨2, 2⟩, ⟨3, 1⟩], [0]⟩)] = .ok () :=
  ⟨(C7_legacy_needs_three_streams
      [(1, ⟨2, [⟨1, 1⟩], []⟩), (2, ⟨ReportFormatEVMPremiumLegacy, [⟨1, 1⟩, ⟨2, 1⟩], []⟩)]
      0 ⟨0, 0⟩ ⟨0, 0⟩ ⟨0, 0⟩ []).1 (by decide)
      ⟨(2, ⟨ReportFormatEVMPremiumLegacy, [⟨1, 1⟩, ⟨2, 1⟩], []⟩), by simp, rfl, by decide⟩,
    (C7_legacy_needs_three_streams [] 9 ⟨1, 1⟩ ⟨2, 2⟩ ⟨3, 1⟩ [0]).2
      (by decide) (by decide) (by decide)⟩

/-- C8. At sequence number 0 `ValidateObservation` rejects every observation; at
sequence number 1 it rejects every non-empty payload without consulting the
codec; and if the codec decodes the empty payload to the zero-value observation,
the empty payload is accepted at sequence number 1, whether or not the plugin has
a predecessor digest. -/
theorem C8_sequence_number_gate {σ ρ : Type} (p : Plugin σ ρ) (outctx : OutcomeContext)
    (query : Query) (ao : AttributedObservation) :
    (outctx.SeqNr = 0 →
      p.ValidateObservation outctx query ao = .error (.invalidSeqNr 0)) ∧
    (outctx.SeqNr = 1 → ao.Observation ≠ [] →
      p.ValidateObservation outctx query ao =
        .error (.expectedEmptyObservation ao.Observation)) ∧
    (outctx.SeqNr = 1 → ao.Observation = [] →
      p.ObservationCodec.Decode [] = .ok (Observation.zero σ) →
      p.ValidateObservation outctx query ao = .ok ()) := by
  refine ⟨fun h0 => ?_, fun h1 hne => ?_, fun h1 hnil hdec => ?_⟩
  · simp [Plugin.ValidateObservation, h0]
  · have hlen : ao.Observation.length ≠ 0 := fun h => hne (List.length_eq_zero.1 h)
    simp [Plugin.ValidateObservation, h1, hlen]
  · rw [ValidateObservation_of_decoded p outctx query ao (Observation.zero σ) (by omega)
      (fun _ => by simp [hnil]) (by rw [hnil]; exact hdec), validateDecoded_ok_iff]
    refine ⟨Or.inr rfl, by simp [Observation.zero], by simp [Observation.zero], ?_,
      by simp [Observation.zero]⟩
    rfl

/-- C8, at a plugin without predecessor (sequence numbers 0 and 1, payload
`[1]`) and at plugins with and without predecessor (sequence number 1, empty
payload). -/
theorem C8_sequence_number_gate_witness :
    (fixturePlugin none retirementOnlyCodec).ValidateObservation ⟨0, [], 0, 0⟩ [] ⟨[1], 0⟩ =
      .error (.invalidSeqNr 0) ∧
    (fixturePlugin none retirementOnlyCodec).ValidateObservation ⟨1, [], 0, 0⟩ [] ⟨[1], 0⟩ =
      .error (.expectedEmptyObservation [1]) ∧
    (fixturePlugin none retirementOnlyCodec).ValidateObservation ⟨1, [], 0, 0⟩ [] ⟨[], 0⟩ =
      .ok () ∧
    (fixturePlugin (some [7]) retirementOnlyCodec).ValidateObservation ⟨1, [], 0, 0⟩ []
      ⟨[], 0⟩ = .ok () :=
  ⟨(C8_sequence_number_gate (fixturePlugin none retirementOnlyCodec) ⟨0, [], 0, 0⟩ []
      ⟨[1], 0⟩).1 rfl,
    (C8_sequence_number_gate (fixturePlugin none retirementOnlyCodec) ⟨1, [], 0, 0⟩ []
      ⟨[1], 0⟩).2.1 rfl (by decide),
    (C8_sequence_number_gate (fixturePlugin none retirementOnlyCodec) ⟨1, [], 0, 0⟩ []
      ⟨[], 0⟩).2.2 rfl rfl rfl,
    (C8_sequence_number_gate (fixturePlugin (some [7]) retirementOnlyCodec) ⟨1, [], 0, 0⟩ []
      ⟨[], 0⟩).2.2 rfl rfl rfl⟩

/-- C9. At a sequence number of at least 2 and a payload that decodes to `o`,
`ValidateObservation` rejects `o` when it has more than 5 update channels, more
than 5 remove ids, or more than 10,000 stream values; it accepts `o` when it has
exactly 5 update channels that pass `VerifyChannelDefinitions`, exactly 5 remove
ids, exactly 10,000 stream values and an empty AttestedPredecessorRetirement. -/
theorem C9_observation_size_limits {σ ρ : Type} (p : Plugin σ ρ) (outctx : OutcomeContext)
    (query : Query) (ao : AttributedObservation) (o : Observation σ)
    (hseq : 2 ≤ outctx.SeqNr) (hdec : p.ObservationCodec.Decode ao.Observation = .ok o) :
    (5 < o.UpdateChannelDefinitions.length →
      ∃ err, p.ValidateObservation outctx query ao = .error err) ∧
    (5 < o.RemoveChannelIDs.length →
      ∃ err, p.ValidateObservation outctx query ao = .error err) ∧
    (10000 < o.StreamValues.length →
      ∃ err, p.ValidateObservation outctx query ao = .error err) ∧
    (o.UpdateChannelDefinitions.length = 5 →
      VerifyChannelDefinitions o.UpdateChannelDefinitions = .ok () →
      o.RemoveChannelIDs.length = 5 → o.StreamValues.length = 10000 →
      o.AttestedPredecessorRetirement = [] →
      p.ValidateObservation outctx query ao = .ok ()) := by
  have hval := ValidateObservation_of_decoded p outctx query ao o (by omega)
    (fun h1 => by omega) hdec
  refine ⟨fun h => ?_, fun h => ?_, fun h => ?_, fun hu hv hr hs ha => ?_⟩
  · refine exists_error_of_ne_ok _ fun hok => ?_
    rw [hval, validateDecoded_ok_iff] at hok
    omega
  · refine exists_error_of_ne_ok _ fun hok => ?_
    rw [hval, validateDecoded_ok_iff] at hok
    omega
  · refine exists_error_of_ne_ok _ fun hok => ?_
    rw [hval, validateDecoded_ok_iff] at hok
    omega
  · rw [hval, validateDecoded_ok_iff]
    exact ⟨Or.inr ha, by omega, by omega, hv, by omega⟩

/-- C9, at sequence number 2 and a plugin without predecessor: observations with
6 update channels, with 6 remove ids and with 10,001 stream values are rejected;
one exactly at the three limits is accepted. -/
theorem C9_observation_size_limits_witness :
    (∃ err, (fixturePlugin none (constantCodec (σ := Unit)
        ⟨[], [], (List.range 6).map fun i => (i, ⟨2, [⟨1, 1⟩], []⟩), []⟩)).ValidateObservation
        ⟨2, [], 0, 0⟩ [] ⟨[1], 0⟩ = .error err) ∧
    (∃ err, (fixturePlugin none (constantCodec (σ := Unit)
        ⟨[], (List.range 6).map fun i => (i, ()), [], []⟩)).ValidateObservation
        ⟨2, [], 0, 0⟩ [] ⟨[1], 0⟩ = .error err) ∧
    (∃ err, (fixturePlugin none (constantCodec (σ := Unit)
        ⟨[], [], [], (List.range 10001).map fun i => (i, ())⟩)).ValidateObservation
        ⟨2, [], 0, 0⟩ [] ⟨[1], 0⟩ = .error err) ∧
    (fixturePlugin none (constantCodec (σ := Unit)
        ⟨[], (List.range 5).map fun i => (i, ()),
          (List.range 5).map fun i => (i, ⟨2, [⟨i, 1⟩], []⟩),
          (List.range 10000).map fun i => (i, ())⟩)).ValidateObservation
        ⟨2, [], 0, 0⟩ [] ⟨[1], 0⟩ = .ok () :=
  ⟨(C9_observation_size_limits _ ⟨2, [], 0, 0⟩ [] ⟨[1], 0⟩ _ (by decide) rfl).1 (by simp),
    (C9_observation_size_limits _ ⟨2, [], 0, 0⟩ [] ⟨[1], 0⟩ _ (by decide) rfl).2.1 (by simp),
    (C9_observation_size_limits _ ⟨2, [], 0, 0⟩ [] ⟨[1], 0⟩ _ (by decide) rfl).2.2.1 (by simp),
    (C9_observation_size_limits _ ⟨2, [], 0, 0⟩ [] ⟨[1], 0⟩ _ (by decide) rfl).2.2.2
      (by simp) (by rfl) (by simp) (by simp) rfl⟩

/-- C10, as stated, fails at sequence number 1: with a predecessor configured,
the empty payload and the payload `[1]` decode to observations that differ only
in their AttestedPredecessorRetirement, and the first is accepted while the
second is rejected by the first-round rule. -/
theorem C10_counterexample_first_round :
    (fixturePlugin (some [7]) retirementOnlyCodec).PredecessorConfigDigest ≠ none ∧
    retirementOnlyCodec [] = .ok ⟨[], [], [], []⟩ ∧
    retirementOnlyCodec [1] = .ok ⟨[1], [], [], []⟩ ∧
    (fixturePlugin (some [7]) retirementOnlyCodec).ValidateObservation ⟨1, [], 0, 0⟩ []
      ⟨[], 0⟩ = .ok () ∧
    (fixturePlugin (some [7]) retirementOnlyCodec).ValidateObservation ⟨1, [], 0, 0⟩ []
      ⟨[1], 0⟩ = .error (.expectedEmptyObservation [1]) :=
  ⟨by simp [fixturePlugin], rfl, rfl, rfl, rfl⟩

/-- C10, amended.  Without a predecessor digest every decodable observation with
a non-empty AttestedPredecessorRetirement is rejected.  With a predecessor digest
(in two plugins whose caches and other collaborators may differ), two payloads
that decode to observations differing only in AttestedPredecessorRetirement
receive the same verdict, provided that at sequence number 1 the two payloads are
both empty or both non-empty. -/
theorem C10_retirement_checked_only_against_predecessor {σ ρ : Type} (p₁ p₂ : Plugin σ ρ)
    (outctx : OutcomeContext) (query₁ query₂ : Query) (ao₁ ao₂ : AttributedObservation)
    (o₁ o₂ : Observation σ)
    (hd₁ : p₁.ObservationCodec.Decode ao₁.Observation = .ok o₁)
    (hd₂ : p₂.ObservationCodec.Decode ao₂.Observation = .ok o₂) :
    (p₁.PredecessorConfigDigest = none → o₁.AttestedPredecessorRetirement ≠ [] →
      ∃ err, p₁.ValidateObservation outctx query₁ ao₁ = .error err) ∧
    (p₁.PredecessorConfigDigest ≠ none → p₂.PredecessorConfigDigest ≠ none →
      o₁.RemoveChannelIDs = o₂.RemoveChannelIDs →
      o₁.UpdateChannelDefinitions = o₂.UpdateChannelDefinitions →
      o₁.StreamValues = o₂.StreamValues →
      (outctx.SeqNr = 1 → (ao₁.Observation = [] ↔ ao₂.Observation = [])) →
      succeeds (p₁.ValidateObservation outctx query₁ ao₁) =
        succeeds (p₂.ValidateObservation outctx query₂ ao₂)) := by
  constructor
  · intro hnone hne
    refine exists_error_of_ne_ok _ fun hok => ?_
    by_cases hseq : 1 ≤ outctx.SeqNr
    · by_cases hfirst : outctx.SeqNr = 1 → ao₁.Observation.length = 0
      · rw [ValidateObservation_of_decoded p₁ outctx query₁ ao₁ o₁ hseq hfirst hd₁,
          validateDecoded_ok_iff, hnone] at hok
        rcases hok.1 with h | h
        · simp at h
        · exact hne h
      · have h1 : outctx.SeqNr = 1 ∧ ao₁.Observation.length ≠ 0 := by
          by_contra hcon
          exact hfirst fun h => by
            by_contra hlen
            exact hcon ⟨h, hlen⟩
        simp only [Plugin.ValidateObservation, if_neg (Nat.not_lt.2 hseq), if_pos h1] at hok
        cases hok
    · simp only [Plugin.ValidateObservation, if_pos (Nat.not_le.1 hseq)] at hok
      cases hok
  · intro hp₁ hp₂ hr hu hs hgate
    have hsome₁ : p₁.PredecessorConfigDigest.isSome = true := by
      cases h : p₁.PredecessorConfigDigest with
      | none => exact absurd h hp₁
      | some d => rfl
    have hsome₂ : p₂.PredecessorConfigDigest.isSome = true := by
      cases h : p₂.PredecessorConfigDigest with
      | none => exact absurd h hp₂
      | some d => rfl
    by_cases hseq : 1 ≤ outctx.SeqNr
    · by_cases hfirst : outctx.SeqNr = 1 ∧ ao₁.Observation.length ≠ 0
      · have hne₂ : ao₂.Observation.length ≠ 0 := by
          intro hlen
          exact hfirst.2 (by
            rw [(hgate hfirst.1).2 (List.length_eq_zero.1 hlen)]; rfl)
        simp [Plugin.ValidateObservation, Nat.not_lt.2 hseq, hfirst.1, hfirst.2, hne₂, succeeds]
      · have hf₁ : outctx.SeqNr = 1 → ao₁.Observation.length = 0 := by
          intro h
          by_contra hlen
          exact hfirst ⟨h, hlen⟩
        have hf₂ : outctx.SeqNr = 1 → ao₂.Observation.length = 0 := by
          intro h
          rw [(hgate h).1 (List.length_eq_zero.1 (hf₁ h))]; rfl
        rw [ValidateObservation_of_decoded p₁ outctx query₁ ao₁ o₁ hseq hf₁ hd₁,
          ValidateObservation_of_decoded p₂ outctx query₂ ao₂ o₂ hseq hf₂ hd₂, hsome₁, hsome₂,
          validateDecoded_congr o₁ o₂ hr hu hs]
    · simp [Plugin.ValidateObservation, Nat.not_le.1 hseq, succeeds]

/-- C10, amended, at sequence number 2: without predecessor the payload `[1]` is
rejected; with predecessors `[7]` and `[8]` the payloads `[1]` and `[2, 3]`
receive the same verdict. -/
theorem C10_retirement_checked_only_against_predecessor_witness :
    (∃ err, (fixturePlugin none retirementOnlyCodec).ValidateObservation ⟨2, [], 0, 0⟩ []
      ⟨[1], 0⟩ = .error err) ∧
    succeeds ((fixturePlugin (some [7]) retirementOnlyCodec).ValidateObservation
        ⟨2, [], 0, 0⟩ [] ⟨[1], 0⟩) =
      succeeds ((fixturePlugin (some [8]) retirementOnlyCodec).ValidateObservation
        ⟨2, [], 0, 0⟩ [] ⟨[2, 3], 1⟩) :=
  ⟨(C10_retirement_checked_only_against_predecessor
      (fixturePlugin none retirementOnlyCodec) (fixturePlugin none retirementOnlyCodec)
      ⟨2, [], 0, 0⟩ [] [] ⟨[1], 0⟩ ⟨[1], 0⟩ _ _ rfl rfl).1 rfl (by decide),
    (C10_retirement_checked_only_against_predecessor
      (fixturePlugin (some [7]) retirementOnlyCodec) (fixturePlugin (some [8]) retirementOnlyCodec)
      ⟨2, [], 0, 0⟩ [] [] ⟨[1], 0⟩ ⟨[2, 3], 1⟩ _ _ rfl rfl).2
      (by simp [fixturePlugin]) (by simp [fixturePlugin]) rfl rfl rfl (by decide)⟩

/-- All keys of the minuend being keys of the subtrahend, the difference list is
empty. -/
theorem differenceListOf_eq_nil (A B : ChannelDefinitions)
    (h : ∀ k ∈ GoMap.keys A, k ∈ GoMap.keys B) : differenceListOf A B = [] := by
  rw [differenceListOf_eq, List.map_eq_nil_iff, List.filter_eq_nil_iff]
  intro e he
  have := h e.1 (List.mem_map_of_mem Prod.fst he)
  simpa using this

theorem subtractChannelDefinitions_of_subset (A B : ChannelDefinitions) (limit : Int)
    (h : ∀ k ∈ GoMap.keys A, k ∈ GoMap.keys B) (hl : 0 ≤ limit) :
    subtractChannelDefinitions A B limit = some [] := by
  unfold subtractChannelDefinitions
  rw [differenceListOf_eq_nil A B h]
  have hs : sortSlice lessChannelID ([] : List ChannelDefinitionWithID) = [] := rfl
  simp only [hs, List.length_nil]
  rw [if_neg (by simpa using hl)]
  rfl

/-- C11. For every mapping `A` and limit that is not negative,
`subtractChannelDefinitions A A limit` is the empty mapping; and the result is
empty whenever every ChannelID of the minuend is a ChannelID of the subtrahend,
whatever definitions the two store under it. -/
theorem C11_subtract_self_is_empty (A B : ChannelDefinitions) (limit : Int) (hl : 0 ≤ limit) :
    subtractChannelDefinitions A A limit = some [] ∧
    ((∀ k ∈ GoMap.keys A, k ∈ GoMap.keys B) →
      subtractChannelDefinitions A B limit = some []) :=
  ⟨subtractChannelDefinitions_of_subset A A limit (fun _ hk => hk) hl,
    fun h => subtractChannelDefinitions_of_subset A B limit h hl⟩

/-- C11, at a mapping of two channels and a subtrahend that stores other
definitions under the same two ChannelIDs, limit 1. -/
theorem C11_subtract_self_is_empty_witness :
    (0 : Int) ≤ 1 ∧
    subtractChannelDefinitions [(2, ⟨2, [⟨1, 1⟩], []⟩), (1, ⟨2, [⟨2, 1⟩], []⟩)]
      [(2, ⟨2, [⟨1, 1⟩], []⟩), (1, ⟨2, [⟨2, 1⟩], []⟩)] 1 = some [] ∧
    subtractChannelDefinitions [(2, ⟨2, [⟨1, 1⟩], []⟩), (1, ⟨2, [⟨2, 1⟩], []⟩)]
      [(1, ⟨1, [], [9]⟩), (2, ⟨3, [⟨7, 7⟩], []⟩), (3, ⟨3, [], []⟩)] 1 = some [] :=
  ⟨by decide,
    (C11_subtract_self_is_empty [(2, ⟨2, [⟨1, 1⟩], []⟩), (1, ⟨2, [⟨2, 1⟩], []⟩)]
      [] 1 (by decide)).1,
    (C11_subtract_self_is_empty [(2, ⟨2, [⟨1, 1⟩], []⟩), (1, ⟨2, [⟨2, 1⟩], []⟩)]
      [(1, ⟨1, [], [9]⟩), (2, ⟨3, [⟨7, 7⟩], []⟩), (3, ⟨3, [], []⟩)] 1 (by decide)).2
      (by simp [GoMap.keys])⟩

/-- C12. For a duplicate-key-free minuend `A`, any subtrahend `B` and a limit
that is not negative, the mapping returned has exactly `min limit n` entries,
`n` the number of keys of `A` that are not keys of `B`; so it has at most `limit`
entries, and none when `limit` is 0. -/
theorem C12_subtract_size (A B : ChannelDefinitions) (limit : Int)
    (hA : GoMap.WF A) (hl : 0 ≤ limit) :
    ∃ R : ChannelDefinitions, subtractChannelDefinitions A B limit = some R ∧
      (R.length : Int) = min limit (missingKeys A B).length ∧
      (R.length : Int) ≤ limit ∧
      (limit = 0 → R = []) := by
  obtain ⟨R, hR, _, hlen, _, _⟩ := subtractChannelDefinitions_spec A B limit hA hl
  refine ⟨R, hR, ?_, ?_, ?_⟩
  · rw [hlen]; omega
  · rw [hlen]; omega
  · intro h0
    apply List.length_eq_zero.1
    rw [hlen, h0]; simp

/-- C12, at a minuend of three channels, a subtrahend of one, and limit 1. -/
theorem C12_subtract_size_witness :
    GoMap.WF ([(3, ⟨2, [⟨1, 1⟩], []⟩), (1, ⟨2, [⟨2, 1⟩], []⟩), (2, ⟨2, [⟨3, 1⟩], []⟩)] :
      ChannelDefinitions) ∧ (0 : Int) ≤ 1 ∧
    ∃ R : ChannelDefinitions,
      subtractChannelDefinitions
        [(3, ⟨2, [⟨1, 1⟩], []⟩), (1, ⟨2, [⟨2, 1⟩], []⟩), (2, ⟨2, [⟨3, 1⟩], []⟩)]
        [(2, ⟨1, [], []⟩)] 1 = some R ∧ (R.length : Int) ≤ 1 :=
  ⟨by simp [GoMap.WF, GoMap.keys], by decide,
    let ⟨R, hR, _, hle, _⟩ :=
      C12_subtract_size
        [(3, ⟨2, [⟨1, 1⟩], []⟩), (1, ⟨2, [⟨2, 1⟩], []⟩), (2, ⟨2, [⟨3, 1⟩], []⟩)]
        [(2, ⟨1, [], []⟩)] 1 (by simp [GoMap.WF, GoMap.keys]) (by decide)
    ⟨R, hR, hle⟩⟩

/-- C13. Two invocations of `ValidateObservation` that agree on the sequence
number, on whether a predecessor digest is present, and on the observation
bytes, decoded by the same codec, return the same result, whatever the queries,
the previous outcomes, the observers, the digests and the other fields of the
two plugins are. -/
theorem C13_validate_depends_on_three_inputs {σ ρ : Type} (p₁ p₂ : Plugin σ ρ)
    (outctx₁ outctx₂ : OutcomeContext) (query₁ query₂ : Query)
    (ao₁ ao₂ : AttributedObservation)
    (hseq : outctx₁.SeqNr = outctx₂.SeqNr)
    (hpred : p₁.PredecessorConfigDigest.isSome = p₂.PredecessorConfigDigest.isSome)
    (hobs : ao₁.Observation = ao₂.Observation)
    (hcodec : p₁.ObservationCodec = p₂.ObservationCodec) :
    p₁.ValidateObservation outctx₁ query₁ ao₁ = p₂.ValidateObservation outctx₂ query₂ ao₂ := by
  unfold Plugin.ValidateObservation
  rw [hseq, hpred, hobs, hcodec]

/-- C13, at sequence number 2 and payload `[1]`: two plugins that differ in
digests, fault tolerance, configuration and channel-definition cache, called
with different queries, previous outcomes and observers. -/
theorem C13_validate_depends_on_three_inputs_witness :
    (fixturePlugin (some [7]) retirementOnlyCodec).ValidateObservation
        ⟨2, [], 0, 0⟩ [] ⟨[1], 0⟩ =
      ({ fixturePlugin (some [8, 9]) retirementOnlyCodec with
          F := 3, Config := ⟨true⟩, ConfigDigest := [4],
          ChannelDefinitionCache := ⟨[(1, ⟨2, [⟨1, 1⟩], []⟩)]⟩ } :
        Plugin Unit Unit).ValidateObservation ⟨2, [5], 1, 2⟩ [6] ⟨[1], 3⟩ :=
  C13_validate_depends_on_three_inputs _ _ ⟨2, [], 0, 0⟩ ⟨2, [5], 1, 2⟩ [] [6]
    ⟨[1], 0⟩ ⟨[1], 3⟩ rfl rfl rfl rfl

/-- C14. For every plugin, round context and query, `ObservationQuorum` returns
no error and the quorum that requires `2 * F + 1` observations of a plugin with
fault tolerance `F`; the value returned is the same for all round contexts and
queries. -/
theorem C14_observation_quorum {σ ρ : Type} (p : Plugin σ ρ) (outctx : OutcomeContext)
    (query : Query) :
    (p.ObservationQuorum outctx query).2 = none ∧
    (p.ObservationQuorum outctx query).1.required p.F = 2 * p.F + 1 ∧
    (∀ (outctx' : OutcomeContext) (query' : Query),
      p.ObservationQuorum outctx' query' = p.ObservationQuorum outctx query) :=
  ⟨rfl, rfl, fun _ _ => rfl⟩

/-- C15. `VerifyEVMPremiumLegacyChannelDefinition` succeeds exactly when the
format is EVM premium legacy and there are exactly 3 streams; when the format is
another one it fails with the wrong-format failure whatever the stream count;
and its result on two definitions with the same format and streams of the same
number is the same verdict, whatever the streams and `Opts` are. -/
theorem C15_verify_legacy_iff (cd cd' : ChannelDefinition) :
    (VerifyEVMPremiumLegacyChannelDefinition cd = .ok () ↔
      cd.ReportFormat = ReportFormatEVMPremiumLegacy ∧ cd.Streams.length = 3) ∧
    (cd.ReportFormat ≠ ReportFormatEVMPremiumLegacy →
      VerifyEVMPremiumLegacyChannelDefinition cd = .error (.wrongFormat cd.ReportFormat)) ∧
    (cd'.ReportFormat = cd.ReportFormat → cd'.Streams.length = cd.Streams.length →
      succeeds (VerifyEVMPremiumLegacyChannelDefinition cd') =
        succeeds (VerifyEVMPremiumLegacyChannelDefinition cd)) := by
  refine ⟨?_, ?_, ?_⟩
  · unfold VerifyEVMPremiumLegacyChannelDefinition
    by_cases hf : cd.ReportFormat = ReportFormatEVMPremiumLegacy
    · by_cases h3 : cd.Streams.length = 3
      · simp [hf, h3]
      · simp [hf, h3]
    · simp [hf]
  · intro hf
    unfold VerifyEVMPremiumLegacyChannelDefinition
    rw [if_pos hf]
  · intro hf hs
    unfold VerifyEVMPremiumLegacyChannelDefinition
    rw [hf, hs]
    by_cases hf' : cd.ReportFormat = ReportFormatEVMPremiumLegacy
    · by_cases h3 : cd.Streams.length = 3
      · simp [hf', h3, succeeds]
      · simp [hf', h3, succeeds]
    · simp [hf', succeeds]

/-- C15, at a definition of another format with 3 streams, and at two
EVM-premium-legacy definitions with 3 streams each, one of them with zero
Aggregators. -/
theorem C15_verify_legacy_iff_witness :
    VerifyEVMPremiumLegacyChannelDefinition ⟨2, [⟨1, 1⟩, ⟨2, 1⟩, ⟨3, 1⟩], []⟩ =
      .error (.wrongFormat 2) ∧
    succeeds (VerifyEVMPremiumLegacyChannelDefinition
        ⟨ReportFormatEVMPremiumLegacy, [⟨0, 0⟩, ⟨0, 0⟩, ⟨0, 0⟩], [5]⟩) =
      succeeds (VerifyEVMPremiumLegacyChannelDefinition
        ⟨ReportFormatEVMPremiumLegacy, [⟨1, 1⟩, ⟨2, 1⟩, ⟨3, 1⟩], []⟩) :=
  ⟨(C15_verify_legacy_iff ⟨2, [⟨1, 1⟩, ⟨2, 1⟩, ⟨3, 1⟩], []⟩
      ⟨2, [⟨1, 1⟩, ⟨2, 1⟩, ⟨3, 1⟩], []⟩).2.1 (by decide),
    (C15_verify_legacy_iff ⟨ReportFormatEVMPremiumLegacy, [⟨1, 1⟩, ⟨2, 1⟩, ⟨3, 1⟩], []⟩
      ⟨ReportFormatEVMPremiumLegacy, [⟨0, 0⟩, ⟨0, 0⟩, ⟨0, 0⟩], [5]⟩).2.2 rfl rfl⟩

/-- C18, as stated, fails: a mapping with a channel without streams and a channel
with a zero Aggregator is rejected with the empty-streams failure naming channel
1 in one visiting order and with the uninitialized-aggregator failure naming
channel 2 in the other. -/
theorem C18_counterexample_failure_depends_on_order :
    List.Perm ([(1, ⟨2, [], []⟩), (2, ⟨2, [⟨5, 0⟩], []⟩)] : ChannelDefinitions)
      [(2, ⟨2, [⟨5, 0⟩], []⟩), (1, ⟨2, [], []⟩)] ∧
    VerifyChannelDefinitions [(1, ⟨2, [], []⟩), (2, ⟨2, [⟨5, 0⟩], []⟩)] =
      .error (.noStreams 1) ∧
    VerifyChannelDefinitions [(2, ⟨2, [⟨5, 0⟩], []⟩), (1, ⟨2, [], []⟩)] =
      .error (.zeroAggregator 2 5) :=
  ⟨List.Perm.swap _ _ _, rfl, rfl⟩

/-- C18, amended.  For two visiting orders of one mapping: the verdict is the
same; a too-many-channels or too-many-unique-stream-IDs failure of one is the
same failure of the other; when the mapping has at most one invalid channel the
whole result is the same; and in any order of a mapping within the channel
limit, the failure reported is that of the first invalid channel visited. -/
theorem C18_verify_order_independent_verdict (defs defs' : ChannelDefinitions)
    (h : defs.Perm defs') :
    succeeds (VerifyChannelDefinitions defs') = succeeds (VerifyChannelDefinitions defs) ∧
    (∀ n, VerifyChannelDefinitions defs = .error (.tooManyChannels n) →
      VerifyChannelDefinitions defs' = .error (.tooManyChannels n)) ∧
    (∀ n, VerifyChannelDefinitions defs = .error (.tooManyUniqueStreamIDs n) →
      VerifyChannelDefinitions defs' = .error (.tooManyUniqueStreamIDs n)) ∧
    ((∀ e₁ ∈ defs, ∀ e₂ ∈ defs, ¬ ChannelValid e₁.2 → ¬ ChannelValid e₂.2 → e₁ = e₂) →
      VerifyChannelDefinitions defs' = VerifyChannelDefinitions defs) ∧
    (∀ (pre post : ChannelDefinitions) (e : ChannelID × ChannelDefinition),
      defs' = pre ++ e :: post → defs'.length ≤ 10000 →
      (∀ x ∈ pre, ChannelValid x.2) → ¬ ChannelValid e.2 →
      ∃ err, channelFailure e.1 e.2 = some err ∧ VerifyChannelDefinitions defs' = .error err) := by
  have hlen : defs'.length = defs.length := h.length_eq.symm
  have hdist : distinctStreamIDs defs' = distinctStreamIDs defs := (distinctStreamIDs_perm h).symm
  refine ⟨?_, ?_, ?_, ?_, ?_⟩
  · rw [Bool.eq_iff_iff, succeeds_iff_ok, succeeds_iff_ok]
    exact (VerifyChannelDefinitions_ok_perm h).symm
  · intro n hn
    rw [VerifyChannelDefinitions_eq] at hn ⊢
    rw [hlen]
    by_cases hgt : defs.length > MaxOutcomeChannelDefinitionsLength
    · rw [if_pos hgt] at hn ⊢; exact hn
    · rw [if_neg hgt] at hn
      cases hc : firstChannelFailure defs with
      | some err =>
        rw [hc] at hn
        simp only [Except.error.injEq] at hn
        exact absurd hn ((firstChannelFailure_ne_size defs err hc).1 n)
      | none =>
        rw [hc] at hn
        simp only at hn
        split at hn <;> cases hn
  · intro n hn
    rw [VerifyChannelDefinitions_eq] at hn ⊢
    rw [hlen, hdist]
    by_cases hgt : defs.length > MaxOutcomeChannelDefinitionsLength
    · rw [if_pos hgt] at hn; cases hn
    · rw [if_neg hgt] at hn ⊢
      cases hc : firstChannelFailure defs with
      | some err =>
        rw [hc] at hn
        simp only [Except.error.injEq] at hn
        exact absurd hn ((firstChannelFailure_ne_size defs err hc).2 n)
      | none =>
        rw [(firstChannelFailure_perm_none h).1 hc]
        rw [hc] at hn
        exact hn
  · intro huniq
    rw [VerifyChannelDefinitions_eq, VerifyChannelDefinitions_eq, hlen, hdist,
      firstChannelFailure_perm_of_unique h huniq]
  · intro pre post e hsplit hle hpre he
    have hfirst : firstChannelFailure defs' = channelFailure e.1 e.2 := by
      rw [hsplit]; exact firstChannelFailure_append pre post e hpre he
    cases hc : channelFailure e.1 e.2 with
    | none => exact absurd ((channelFailure_eq_none_iff e.1 e.2).1 hc) he
    | some err =>
      refine ⟨err, rfl, ?_⟩
      rw [VerifyChannelDefinitions_eq,
        if_neg (by simpa [MaxOutcomeChannelDefinitionsLength] using hle), hfirst, hc]

/-- C18, amended, at a mapping of a valid channel and a channel without streams,
in both visiting orders. -/
theorem C18_verify_order_independent_verdict_witness :
    List.Perm ([(1, ⟨2, [⟨1, 1⟩], []⟩), (2, ⟨2, [], []⟩)] : ChannelDefinitions)
      [(2, ⟨2, [], []⟩), (1, ⟨2, [⟨1, 1⟩], []⟩)] ∧
    VerifyChannelDefinitions [(2, ⟨2, [], []⟩), (1, ⟨2, [⟨1, 1⟩], []⟩)] =
      VerifyChannelDefinitions [(1, ⟨2, [⟨1, 1⟩], []⟩), (2, ⟨2, [], []⟩)] ∧
    (∃ err, channelFailure 2 ⟨2, [], []⟩ = some err ∧
      VerifyChannelDefinitions [(2, ⟨2, [], []⟩), (1, ⟨2, [⟨1, 1⟩], []⟩)] = .error err) :=
  ⟨List.Perm.swap _ _ _,
    (C18_verify_order_independent_verdict _ _ (List.Perm.swap _ _ _)).2.2.2.1 (by
      intro e₁ h₁ e₂ h₂ hv₁ hv₂
      simp only [List.mem_cons, List.mem_singleton, List.not_mem_nil, or_false] at h₁ h₂
      rcases h₁ with rfl | rfl
      · exact absurd (by decide) hv₁
      · rcases h₂ with rfl | rfl
        · exact absurd (by decide) hv₂
        · rfl),
    (C18_verify_order_independent_verdict
      [(1, ⟨2, [⟨1, 1⟩], []⟩), (2, ⟨2, [], []⟩)]
      [(2, ⟨2, [], []⟩), (1, ⟨2, [⟨1, 1⟩], []⟩)] (List.Perm.swap _ _ _)).2.2.2.2
      [] [(1, ⟨2, [⟨1, 1⟩], []⟩)] (2, ⟨2, [], []⟩) rfl (by decide) (by simp) (by decide)⟩

/-- C19. For a mapping with a single channel: a channel without streams gives the
empty-streams failure naming the channel, whatever its format; a channel whose
first stream with Aggregator 0 is `s` gives the uninitialized-aggregator failure
naming the channel and `s`, whatever its format and stream count; and a format
failure is returned only when the channel has streams and all of them have a
non-zero Aggregator. -/
theorem C19_checks_order_within_channel (channelID : ChannelID) (cd : ChannelDefinition) :
    (cd.Streams = [] →
      VerifyChannelDefinitions [(channelID, cd)] = .error (.noStreams channelID)) ∧
    (∀ (pre post : List Stream) (s : Stream), cd.Streams = pre ++ s :: post →
      (∀ t ∈ pre, t.Aggregator ≠ 0) → s.Aggregator = 0 →
      VerifyChannelDefinitions [(channelID, cd)] =
        .error (.zeroAggregator channelID s.StreamID)) ∧
    (∀ (id : ChannelID) (err : LegacyError),
      VerifyChannelDefinitions [(channelID, cd)] = .error (.invalidChannelDefinition id err) →
      cd.Streams ≠ [] ∧ (∀ s ∈ cd.Streams, s.Aggregator ≠ 0) ∧
        cd.ReportFormat = ReportFormatEVMPremiumLegacy ∧ id = channelID ∧
        err = .not3Streams cd.Streams) := by
  have hV : VerifyChannelDefinitions [(channelID, cd)] =
      match channelFailure channelID cd with
      | some err => .error err
      | none =>
        if distinctStreamIDs [(channelID, cd)] > MaxObservationStreamValuesLength then
          .error (.tooManyUniqueStreamIDs (distinctStreamIDs [(channelID, cd)]))
        else .ok () := by
    rw [VerifyChannelDefinitions_eq, if_neg (by simp [MaxOutcomeChannelDefinitionsLength]),
      firstChannelFailure_singleton]
  refine ⟨?_, ?_, ?_⟩
  · intro hnil
    rw [hV]
    simp [channelFailure, hnil]
  · intro pre post s hsplit hpre hs
    have hfind : (cd.Streams.find? fun s => decide (s.Aggregator = 0)) = some s := by
      have hnone : (pre.find? fun s => decide (s.Aggregator = 0)) = none := by
        rw [List.find?_eq_none]
        intro t ht
        simpa using hpre t ht
      rw [hsplit, List.find?_append, hnone]
      simp [List.find?_cons, hs]
    have hlen : cd.Streams.length ≠ 0 := by rw [hsplit]; simp
    rw [hV]
    simp only [channelFailure, if_neg hlen, hfind]
  · intro id err herr
    rw [hV] at herr
    unfold channelFailure at herr
    by_cases hlen : cd.Streams.length = 0
    · rw [if_pos hlen] at herr
      cases herr
    · rw [if_neg hlen] at herr
      have hne : cd.Streams ≠ [] := fun h0 => hlen (by simp [h0])
      cases hfind : (cd.Streams.find? fun s => decide (s.Aggregator = 0)) with
      | some s =>
        rw [hfind] at herr
        cases herr
      | none =>
        rw [hfind] at herr
        have hall : ∀ s ∈ cd.Streams, s.Aggregator ≠ 0 := by
          intro s hs
          have := List.find?_eq_none.1 hfind s hs
          simpa using this
        by_cases hf : cd.ReportFormat = ReportFormatEVMPremiumLegacy ∧ cd.Streams.length ≠ 3
        · simp only [if_pos hf, Except.error.injEq, VerifyError.invalidChannelDefinition.injEq]
            at herr
          exact ⟨hne, hall, hf.1, herr.1.symm, herr.2.symm⟩
        · simp only [if_neg hf] at herr
          split at herr <;> cases herr

/-- C19, at EVM-premium-legacy channels: one without streams, and one with two
streams of which the second has Aggregator 0. -/
theorem C19_checks_order_within_channel_witness :
    VerifyChannelDefinitions [(4, ⟨ReportFormatEVMPremiumLegacy, [], []⟩)] =
      .error (.noStreams 4) ∧
    VerifyChannelDefinitions [(4, ⟨ReportFormatEVMPremiumLegacy, [⟨8, 1⟩, ⟨9, 0⟩], []⟩)] =
      .error (.zeroAggregator 4 9) :=
  ⟨(C19_checks_order_within_channel 4 ⟨ReportFormatEVMPremiumLegacy, [], []⟩).1 rfl,
    (C19_checks_order_within_channel 4
      ⟨ReportFormatEVMPremiumLegacy, [⟨8, 1⟩, ⟨9, 0⟩], []⟩).2.1 [⟨8, 1⟩] [] ⟨9, 0⟩ rfl
      (by simp) rfl⟩

/-- C20. `ValidateObservation` never rejects with the too-many-channels failure
of `VerifyChannelDefinitions`, which is called on at most 5 channels; the
too-many-unique-stream-IDs failure is reachable there: an observation whose
single update channel holds 10,001 streams with pairwise distinct ids is rejected
with it. -/
theorem C20_too_many_channels_unreachable {σ ρ : Type} (p : Plugin σ ρ)
    (outctx : OutcomeContext) (query : Query) (ao : AttributedObservation) (n : Nat) :
    p.ValidateObservation outctx query ao ≠
      .error (.updateChannelDefinitionsInvalid (.tooManyChannels n)) ∧
    (List.length ([(1, ⟨2, (List.range 10001).map fun i => ⟨i, 1⟩, []⟩)] :
        ChannelDefinitions) ≤ 5 ∧
      (fixturePlugin none (constantCodec (σ := Unit)
        ⟨[], [], [(1, ⟨2, (List.range 10001).map fun i => ⟨i, 1⟩, []⟩)], []⟩)).ValidateObservation
        ⟨2, [], 0, 0⟩ [] ⟨[1], 0⟩ =
      .error (.updateChannelDefinitionsInvalid (.tooManyUniqueStreamIDs 10001))) := by
  constructor
  · intro h
    unfold Plugin.ValidateObservation at h
    split at h
    · cases h
    · split at h
      · cases h
      · cases hdec : p.ObservationCodec.Decode ao.Observation with
        | error err => rw [hdec] at h; cases h
        | ok o =>
          rw [hdec] at h
          exact validateDecoded_ne_tooManyChannels _ o n h
  · have hall : allStreamIDs [(1, ⟨2, (List.range 10001).map fun i => ⟨i, 1⟩, []⟩)] =
        List.range 10001 :=
      allStreamIDs_single_of_ids 1 2 [] 1 (List.range 10001)
    have hdist : distinctStreamIDs [(1, ⟨2, (List.range 10001).map fun i => ⟨i, 1⟩, []⟩)] =
        10001 := by
      rw [distinctStreamIDs_of_nodup _ (by rw [hall]; exact List.nodup_range _), hall,
        List.length_range]
    have hv : VerifyChannelDefinitions [(1, ⟨2, (List.range 10001).map fun i => ⟨i, 1⟩, []⟩)] =
        .error (.tooManyUniqueStreamIDs 10001) := by
      rw [VerifyChannelDefinitions_of_valid _ (by simp [MaxOutcomeChannelDefinitionsLength])
        (by simp [ChannelValid, ReportFormatEVMPremiumLegacy]), hdist]
      rfl
    refine ⟨by simp, ?_⟩
    rw [ValidateObservation_of_decoded _ ⟨2, [], 0, 0⟩ [] ⟨[1], 0⟩ _ (by decide)
      (fun h => absurd h (by decide)) rfl]
    exact validateDecoded_of_verify_error _ _ _ rfl (by simp) (by simp) hv

/-! ## Lemmas on the batched reconciliation -/

theorem GoMap.mem_keys_set {κ ν : Type} [DecidableEq κ] (m : GoMap κ ν) (k k' : κ) (v : ν) :
    k' ∈ GoMap.keys (GoMap.set m k v) ↔ k' ∈ GoMap.keys m ∨ k' = k := by
  rw [GoMap.keys_set]
  split
  · next hk =>
    constructor
    · exact Or.inl
    · rintro (h | h)
      · exact h
      · exact h ▸ hk
  · simp

theorem mem_keys_mergeInto (B batch : ChannelDefinitions) (k : ChannelID) :
    k ∈ GoMap.keys (mergeInto B batch) ↔ k ∈ GoMap.keys B ∨ k ∈ GoMap.keys batch := by
  unfold mergeInto
  induction batch generalizing B with
  | nil => simp [GoMap.keys]
  | cons e rest ih =>
    rw [List.foldl_cons, ih, GoMap.mem_keys_set]
    simp only [GoMap.keys, List.map_cons, List.mem_cons]
    tauto

theorem missingKeys_mergeInto (A B batch : ChannelDefinitions) :
    missingKeys A (mergeInto B batch) =
      (missingKeys A B).filter fun k => k ∉ GoMap.keys batch := by
  unfold missingKeys
  rw [List.filter_filter]
  congr 1
  funext k
  have := mem_keys_mergeInto B batch k
  by_cases h1 : k ∈ GoMap.keys B <;> by_cases h2 : k ∈ GoMap.keys batch <;>
    simp [this, h1, h2]

theorem mem_missingKeys (A B : ChannelDefinitions) (k : ChannelID) :
    k ∈ missingKeys A B ↔ k ∈ GoMap.keys A ∧ k ∉ GoMap.keys B := by
  simp [missingKeys]

theorem missingKeys_eq_nil_iff (A B : ChannelDefinitions) :
    missingKeys A B = [] ↔ ∀ k ∈ GoMap.keys A, k ∈ GoMap.keys B := by
  rw [List.eq_nil_iff_forall_not_mem]
  constructor
  · intro h k hk
    by_contra hB
    exact h k ((mem_missingKeys A B k).2 ⟨hk, hB⟩)
  · intro h k hk
    obtain ⟨hA, hB⟩ := (mem_missingKeys A B k).1 hk
    exact hB (h k hA)

/-- Removing the members of a duplicate-free sublist `r` from a duplicate-free
list `l` leaves `l.length - r.length` elements. -/
theorem length_filter_not_mem (l r : List ChannelID) (hl : l.Nodup) (hr : r.Nodup)
    (hsub : ∀ k ∈ r, k ∈ l) :
    (l.filter fun k => k ∉ r).length = l.length - r.length := by
  have hf : (l.filter fun k => k ∉ r).Nodup := hl.filter _
  rw [← List.toFinset_card_of_nodup hf, ← List.toFinset_card_of_nodup hl,
    ← List.toFinset_card_of_nodup hr]
  have hset : (l.filter fun k => k ∉ r).toFinset = l.toFinset \ r.toFinset := by
    ext x
    simp
  rw [hset, Finset.card_sdiff]
  intro x hx
  exact List.mem_toFinset.2 (hsub x (List.mem_toFinset.1 hx))

/-- The properties of one batch. -/
theorem subtractBatch_spec (A B : ChannelDefinitions) (n : Nat) (hA : GoMap.WF A) :
    subtractChannelDefinitions A B n = some (subtractBatch A B n) ∧
      (GoMap.keys (subtractBatch A B n)).Pairwise (· < ·) ∧
      (subtractBatch A B n).length = min n (missingKeys A B).length ∧
      (∀ k ∈ GoMap.keys (subtractBatch A B n), k ∈ missingKeys A B) ∧
      (∀ k ∈ missingKeys A B, k ∉ GoMap.keys (subtractBatch A B n) →
        ∀ k' ∈ GoMap.keys (subtractBatch A B n), k' < k) := by
  have heq := subtractChannelDefinitions_eq A B n hA (Int.ofNat_nonneg n)
  obtain ⟨R, hR, hsorted, hlen, hmem, hleft⟩ :=
    subtractChannelDefinitions_spec A B n hA (Int.ofNat_nonneg n)
  simp only [Int.toNat_ofNat] at heq hlen
  have hRe : R = subtractBatch A B n := by
    rw [heq] at hR
    exact (Option.some.inj hR).symm
  subst hRe
  refine ⟨heq, hsorted, hlen, ?_, hleft⟩
  intro k hk
  obtain ⟨e, he, rfl⟩ := List.mem_map.1 hk
  exact (mem_missingKeys A B e.1).2 ⟨List.mem_map_of_mem Prod.fst (hmem e he).1, (hmem e he).2⟩

theorem missingKeys_after_batch_length (A B : ChannelDefinitions) (n : Nat) (hA : GoMap.WF A) :
    (missingKeys A (mergeInto B (subtractBatch A B n))).length =
      (missingKeys A B).length - min n (missingKeys A B).length := by
  obtain ⟨_, hsorted, hlen, hmem, _⟩ := subtractBatch_spec A B n hA
  have hnd : (GoMap.keys (subtractBatch A B n)).Nodup :=
    GoMap.wf_of_pairwise_lt _ hsorted
  rw [missingKeys_mergeInto,
    length_filter_not_mem _ _ (missingKeys_nodup A B hA) hnd hmem, ← hlen]
  simp [GoMap.keys]

theorem reconcileState_missing_length (A B0 : ChannelDefinitions) (n : Nat) (hA : GoMap.WF A)
    (i : Nat) :
    (missingKeys A (reconcileState A n B0 i)).length = (missingKeys A B0).length - i * n := by
  induction i with
  | zero => simp [reconcileState]
  | succ i ih =>
    rw [reconcileState, missingKeys_after_batch_length A _ n hA, ih, Nat.succ_mul]
    omega

theorem reconcileState_missing_mono (A B0 : ChannelDefinitions) (n : Nat) (i d : Nat)
    (k : ChannelID) (hk : k ∈ missingKeys A (reconcileState A n B0 (i + d))) :
    k ∈ missingKeys A (reconcileState A n B0 i) := by
  induction d with
  | zero => exact hk
  | succ d ih =>
    apply ih
    rw [← Nat.add_assoc, reconcileState, missingKeys_mergeInto] at hk
    exact (List.mem_filter.1 hk).1

theorem ceilDiv_le_iff (a b i : Nat) (hb : 1 ≤ b) : ceilDiv a b ≤ i ↔ a ≤ i * b := by
  unfold ceilDiv
  rw [← Nat.lt_succ_iff, Nat.div_lt_iff_lt_mul (by omega), Nat.succ_mul]
  omega

/-! ## Theorems on the batched reconciliation -/

/-- C17. For a duplicate-key-free target `A`, a starting mapping `B0` and a limit
of at least 1, the iteration `B (i+1) = B i ∪ subtractChannelDefinitions A (B i)
limit` is defined at every step; at a step where some ChannelID of `A` is missing
from `B i` the batch is non-empty, has at most `limit` entries, and holds only
ChannelIDs of `A` that were missing; every ChannelID of a later batch is larger
than every ChannelID of an earlier one; every ChannelID of `A` is in `B i`
exactly from step `ceil (n / limit)` on, `n` the number of ChannelIDs of `A`
missing from `B0`; and from then on the batches are empty. -/
theorem C17_batched_reconciliation_converges (A B0 : ChannelDefinitions) (limit : Int)
    (hA : GoMap.WF A) (hl : 1 ≤ limit) :
    ∃ B batch : Nat → ChannelDefinitions,
      B 0 = B0 ∧
      (∀ i, subtractChannelDefinitions A (B i) limit = some (batch i) ∧
        B (i + 1) = mergeInto (B i) (batch i)) ∧
      (∀ i, (∃ k ∈ GoMap.keys A, k ∉ GoMap.keys (B i)) →
        batch i ≠ [] ∧ ((batch i).length : Int) ≤ limit ∧
        ∀ k ∈ GoMap.keys (batch i), k ∈ GoMap.keys A ∧ k ∉ GoMap.keys (B i)) ∧
      (∀ i j, i < j → ∀ k ∈ GoMap.keys (batch i), ∀ k' ∈ GoMap.keys (batch j), k < k') ∧
      (∀ i, (∀ k ∈ GoMap.keys A, k ∈ GoMap.keys (B i)) ↔
        ceilDiv (missingKeys A B0).length limit.toNat ≤ i) ∧
      (∀ i, ceilDiv (missingKeys A B0).length limit.toNat ≤ i → batch i = []) := by
  obtain ⟨n, rfl⟩ : ∃ n : Nat, limit = (n : Int) := ⟨limit.toNat, by omega⟩
  have hn : 1 ≤ n := by omega
  simp only [Int.toNat_ofNat]
  have hconv : ∀ i, (∀ k ∈ GoMap.keys A, k ∈ GoMap.keys (reconcileState A n B0 i)) ↔
      ceilDiv (missingKeys A B0).length n ≤ i := by
    intro i
    rw [← missingKeys_eq_nil_iff, ← List.length_eq_zero,
      reconcileState_missing_length A B0 n hA i, ceilDiv_le_iff _ _ _ hn]
    omega
  refine ⟨reconcileState A n B0, fun i => subtractBatch A (reconcileState A n B0 i) n,
    rfl, fun i => ⟨(subtractBatch_spec A _ n hA).1, rfl⟩, ?_, ?_, hconv, ?_⟩
  · rintro i ⟨k, hkA, hkB⟩
    beta_reduce
    obtain ⟨_, _, hlen, hmem, _⟩ := subtractBatch_spec A (reconcileState A n B0 i) n hA
    have hpos : 0 < (missingKeys A (reconcileState A n B0 i)).length :=
      List.length_pos_of_mem ((mem_missingKeys A _ k).2 ⟨hkA, hkB⟩)
    refine ⟨fun h0 => ?_, ?_, fun k' hk' => (mem_missingKeys A _ k').1 (hmem k' hk')⟩
    · rw [h0, List.length_nil] at hlen
      omega
    · rw [hlen]
      omega
  · intro i j hij k hk k' hk'
    beta_reduce at hk hk'
    obtain ⟨_, _, _, _, hleft⟩ := subtractBatch_spec A (reconcileState A n B0 i) n hA
    obtain ⟨_, _, _, hmem', _⟩ := subtractBatch_spec A (reconcileState A n B0 j) n hA
    obtain ⟨d, rfl⟩ : ∃ d, j = (i + 1) + d := ⟨j - (i + 1), by omega⟩
    have h1 := reconcileState_missing_mono A B0 n (i + 1) d k' (hmem' k' hk')
    rw [reconcileState, missingKeys_mergeInto] at h1
    obtain ⟨hmiss, hnot⟩ := List.mem_filter.1 h1
    exact hleft k' hmiss (by simpa using hnot) k hk
  · intro i hi
    beta_reduce
    obtain ⟨_, _, hlen, _, _⟩ := subtractBatch_spec A (reconcileState A n B0 i) n hA
    have hnil := (missingKeys_eq_nil_iff A _).2 ((hconv i).2 hi)
    rw [hnil] at hlen
    exact List.length_eq_zero.1 (by simpa using hlen)

/-- C17, at a target of three channels, the empty starting mapping and limit 2:
the steps exist, and all channels are present exactly from step 2 on. -/
theorem C17_batched_reconciliation_converges_witness :
    GoMap.WF ([(3, ⟨2, [⟨1, 1⟩], []⟩), (1, ⟨2, [⟨2, 1⟩], []⟩), (2, ⟨2, [⟨3, 1⟩], []⟩)] :
      ChannelDefinitions) ∧ (1 : Int) ≤ 2 ∧
    ceilDiv (missingKeys ([(3, ⟨2, [⟨1, 1⟩], []⟩), (1, ⟨2, [⟨2, 1⟩], []⟩),
      (2, ⟨2, [⟨3, 1⟩], []⟩)] : ChannelDefinitions) []).length (2 : Int).toNat = 2 ∧
    ∃ B batch : Nat → ChannelDefinitions,
      B 0 = [] ∧
      (∀ i, subtractChannelDefinitions
          [(3, ⟨2, [⟨1, 1⟩], []⟩), (1, ⟨2, [⟨2, 1⟩], []⟩), (2, ⟨2, [⟨3, 1⟩], []⟩)] (B i) 2 =
            some (batch i) ∧
        B (i + 1) = mergeInto (B i) (batch i)) ∧
      (∀ i j, i < j → ∀ k ∈ GoMap.keys (batch i), ∀ k' ∈ GoMap.keys (batch j), k < k') :=
  ⟨by simp [GoMap.WF, GoMap.keys], by decide, by decide,
    let ⟨B, batch, h0, hstep, _, hord, _, _⟩ :=
      C17_batched_reconciliation_converges
        [(3, ⟨2, [⟨1, 1⟩], []⟩), (1, ⟨2, [⟨2, 1⟩], []⟩), (2, ⟨2, [⟨3, 1⟩], []⟩)] [] 2
        (by simp [GoMap.WF, GoMap.keys]) (by decide)
    ⟨B, batch, h0, hstep, hord⟩⟩

theorem subtractChannelDefinitions_isSome_iff (A B : ChannelDefinitions) (limit : Int) :
    (∃ R, subtractChannelDefinitions A B limit = some R) ↔ 0 ≤ limit := by
  unfold subtractChannelDefinitions
  simp only
  by_cases hlen : ((sortSlice lessChannelID (differenceListOf A B)).length : Int) > limit
  · rw [if_pos hlen]
    by_cases hneg : limit < 0
    · rw [if_pos hneg]
      constructor
      · rintro ⟨R, hR⟩; cases hR
      · intro h; omega
    · rw [if_neg hneg]
      exact ⟨fun _ => by omega, fun _ => ⟨_, rfl⟩⟩
  · rw [if_neg hlen]
    exact ⟨fun _ => by omega, fun _ => ⟨_, rfl⟩⟩

/-- C21, as stated, fails at a negative limit: with a minuend of one channel, the
empty subtrahend and limit -1 the slice expression `differenceList[:limit]` is
out of bounds and no mapping is returned. -/
theorem C21_counterexample_negative_limit :
    subtractChannelDefinitions [(3, ⟨2, [⟨1, 1⟩], []⟩)] [] (-1) = none :=
  rfl

/-- C21, amended.  For every minuend, every subtrahend and every limit that is
not negative, the truncation is within bounds and `subtractChannelDefinitions`
returns a mapping; for a negative limit the slice expression
`differenceList[:limit]` is out of bounds and no mapping is returned. -/
theorem C21_subtract_total_for_nonnegative_limit (A B : ChannelDefinitions) (limit : Int) :
    (0 ≤ limit → ∃ R, subtractChannelDefinitions A B limit = some R) ∧
    (0 ≤ limit →
      ((sortSlice lessChannelID (differenceListOf A B)).length : Int) > limit →
      limit.toNat ≤ (sortSlice lessChannelID (differenceListOf A B)).length) ∧
    (limit < 0 → subtractChannelDefinitions A B limit = none) := by
  refine ⟨(subtractChannelDefinitions_isSome_iff A B limit).2, fun h0 hgt => by omega, ?_⟩
  intro hneg
  cases hres : subtractChannelDefinitions A B limit with
  | none => rfl
  | some R =>
    have := (subtractChannelDefinitions_isSome_iff A B limit).1 ⟨R, hres⟩
    omega

/-- C21, amended, at a minuend of two channels and the empty subtrahend: a
mapping is returned for the limits 0 and 1, and none for the limit -2. -/
theorem C21_subtract_total_for_nonnegative_limit_witness :
    (∃ R, subtractChannelDefinitions [(3, ⟨2, [⟨1, 1⟩], []⟩), (1, ⟨2, [⟨2, 1⟩], []⟩)] [] 0 =
      some R) ∧
    (∃ R, subtractChannelDefinitions [(3, ⟨2, [⟨1, 1⟩], []⟩), (1, ⟨2, [⟨2, 1⟩], []⟩)] [] 1 =
      some R) ∧
    subtractChannelDefinitions [(3, ⟨2, [⟨1, 1⟩], []⟩), (1, ⟨2, [⟨2, 1⟩], []⟩)] [] (-2) =
      none :=
  ⟨(C21_subtract_total_for_nonnegative_limit
      [(3, ⟨2, [⟨1, 1⟩], []⟩), (1, ⟨2, [⟨2, 1⟩], []⟩)] [] 0).1 (by decide),
    (C21_subtract_total_for_nonnegative_limit
      [(3, ⟨2, [⟨1, 1⟩], []⟩), (1, ⟨2, [⟨2, 1⟩], []⟩)] [] 1).1 (by decide),
    (C21_subtract_total_for_nonnegative_limit
      [(3, ⟨2, [⟨1, 1⟩], []⟩), (1, ⟨2, [⟨2, 1⟩], []⟩)] [] (-2)).2.2 (by decide)⟩

end LLO
